/-
Verification of the bytecode preparation and dispatch core of the Rubinius
virtual machine: a shallow embedding of `Interpreter::prepare` and
`Interpreter::execute` (machine/interpreter.cpp) together with the
`MonoInlineCache` and `JITCompileRequest` field initializers
(machine/builtin/mono_inline_cache.hpp, machine/builtin/jit.hpp), and
theorems about the embedded definitions.
-/
import Mathlib

set_option maxHeartbeats 1600000
set_option maxRecDepth 200000

namespace Rubinius

/-- The instruction opcodes that appear in `Interpreter::prepare`
(machine/interpreter.cpp), plus `ret` (used by concrete test programs). -/
inductive Op where
  | create_block | push_literal | push_memo | check_serial | check_serial_private
  | send_super_stack_with_block | send_super_stack_with_splat | zsuper | send_vcall | send_method
  | send_stack | send_stack_with_block | send_stack_with_splat | object_to_s | push_const
  | find_const | setup_unwind | unwind | b_if_serial | r_load_literal
  | b_if | r_load_local | r_store_local | r_load_local_depth | r_store_local_depth
  | r_load_stack | r_store_stack | r_load_self | r_load_neg1 | r_load_0
  | r_load_1 | r_load_2 | r_load_false | r_load_true | r_ret
  | m_log | r_load_nil | n_ineg | n_ineg_o | n_inot
  | n_iinc | n_idec | n_ibits | n_isize | n_iflt
  | n_eneg | n_enot | n_ebits | n_esize | n_eflt
  | n_dneg | b_if_int | b_if_eint | b_if_float | r_load_int
  | r_store_int | r_load_float | r_store_float | r_load_bool | r_load_m_binops
  | r_load_f_binops | r_copy | n_ipopcnt | a_instance | a_kind
  | a_method | a_receiver_method | a_type | a_function | a_equal
  | a_not_equal | a_less | a_less_equal | a_greater | a_greater_equal
  | n_iadd | n_isub | n_imul | n_idiv | n_imod
  | n_iand | n_ior | n_ixor | n_ishl | n_ishr
  | n_iadd_o | n_isub_o | n_imul_o | n_idiv_o | n_imod_o
  | n_idivmod | n_ipow_o | n_ishl_o | n_ishr_o | n_icmp
  | n_ieq | n_ine | n_ilt | n_ile | n_igt
  | n_ige | n_istr | n_promote | n_demote | n_eadd
  | n_esub | n_emul | n_ediv | n_emod | n_edivmod
  | n_epow | n_eand | n_eor | n_exor | n_eshl
  | n_eshr | n_epopcnt | n_ecmp | n_eeq | n_ene
  | n_elt | n_ele | n_egt | n_ege | n_estr
  | n_dadd | n_dsub | n_dmul | n_ddiv | n_dmod
  | n_ddivmod | n_dpow | n_dcmp | n_deq | n_dne
  | n_dlt | n_dle | n_dgt | n_dge | n_dstr
  | push_int | push_tagged_nil | set_ivar | push_ivar | set_const
  | set_const_at | invoke_primitive | allow_private | m_counter | ret
deriving DecidableEq, Repr, Fintype

/-- Modelled from the spec: the opcode table is "an ordered list of entries
(id, name, width, handler)" with stable integer ids; the table itself
(instructions.hpp) is not part of the sources, so ids are modelled as
positions in this ordered list. -/
def opcodeTable : List Op := [
  Op.create_block, Op.push_literal, Op.push_memo, Op.check_serial,
  Op.check_serial_private, Op.send_super_stack_with_block, Op.send_super_stack_with_splat, Op.zsuper,
  Op.send_vcall, Op.send_method, Op.send_stack, Op.send_stack_with_block,
  Op.send_stack_with_splat, Op.object_to_s, Op.push_const, Op.find_const,
  Op.setup_unwind, Op.unwind, Op.b_if_serial, Op.r_load_literal,
  Op.b_if, Op.r_load_local, Op.r_store_local, Op.r_load_local_depth,
  Op.r_store_local_depth, Op.r_load_stack, Op.r_store_stack, Op.r_load_self,
  Op.r_load_neg1, Op.r_load_0, Op.r_load_1, Op.r_load_2,
  Op.r_load_false, Op.r_load_true, Op.r_ret, Op.m_log,
  Op.r_load_nil, Op.n_ineg, Op.n_ineg_o, Op.n_inot,
  Op.n_iinc, Op.n_idec, Op.n_ibits, Op.n_isize,
  Op.n_iflt, Op.n_eneg, Op.n_enot, Op.n_ebits,
  Op.n_esize, Op.n_eflt, Op.n_dneg, Op.b_if_int,
  Op.b_if_eint, Op.b_if_float, Op.r_load_int, Op.r_store_int,
  Op.r_load_float, Op.r_store_float, Op.r_load_bool, Op.r_load_m_binops,
  Op.r_load_f_binops, Op.r_copy, Op.n_ipopcnt, Op.a_instance,
  Op.a_kind, Op.a_method, Op.a_receiver_method, Op.a_type,
  Op.a_function, Op.a_equal, Op.a_not_equal, Op.a_less,
  Op.a_less_equal, Op.a_greater, Op.a_greater_equal, Op.n_iadd,
  Op.n_isub, Op.n_imul, Op.n_idiv, Op.n_imod,
  Op.n_iand, Op.n_ior, Op.n_ixor, Op.n_ishl,
  Op.n_ishr, Op.n_iadd_o, Op.n_isub_o, Op.n_imul_o,
  Op.n_idiv_o, Op.n_imod_o, Op.n_idivmod, Op.n_ipow_o,
  Op.n_ishl_o, Op.n_ishr_o, Op.n_icmp, Op.n_ieq,
  Op.n_ine, Op.n_ilt, Op.n_ile, Op.n_igt,
  Op.n_ige, Op.n_istr, Op.n_promote, Op.n_demote,
  Op.n_eadd, Op.n_esub, Op.n_emul, Op.n_ediv,
  Op.n_emod, Op.n_edivmod, Op.n_epow, Op.n_eand,
  Op.n_eor, Op.n_exor, Op.n_eshl, Op.n_eshr,
  Op.n_epopcnt, Op.n_ecmp, Op.n_eeq, Op.n_ene,
  Op.n_elt, Op.n_ele, Op.n_egt, Op.n_ege,
  Op.n_estr, Op.n_dadd, Op.n_dsub, Op.n_dmul,
  Op.n_ddiv, Op.n_dmod, Op.n_ddivmod, Op.n_dpow,
  Op.n_dcmp, Op.n_deq, Op.n_dne, Op.n_dlt,
  Op.n_dle, Op.n_dgt, Op.n_dge, Op.n_dstr,
  Op.push_int, Op.push_tagged_nil, Op.set_ivar, Op.push_ivar,
  Op.set_const, Op.set_const_at, Op.invoke_primitive, Op.allow_private,
  Op.m_counter, Op.ret
]

/-- The integer id of an opcode: its position in the opcode table. -/
def opId (op : Op) : Nat := opcodeTable.indexOf op

/-- Decoding an opcode word via the opcode table (`Instructions::instruction_data`). -/
def decodeOp (n : Nat) : Option Op := opcodeTable[n]?

/-- The opcodes whose single biased register operand is operand 1
(second register-offset `switch` group in `Interpreter::prepare`, pass 2). -/
def regBias1 : List Op := [
  Op.b_if, Op.r_load_local, Op.r_store_local, Op.r_load_local_depth,
  Op.r_store_local_depth, Op.r_load_stack, Op.r_store_stack, Op.r_load_self,
  Op.r_load_neg1, Op.r_load_0, Op.r_load_1, Op.r_load_2,
  Op.r_load_false, Op.r_load_true, Op.r_ret, Op.m_log
]

/-- The two-operand opcodes whose operands 1 and 2 are biased by `stack_size`
(register-offset `switch` in `Interpreter::prepare`, pass 2). -/
def regBias2 : List Op := [
  Op.n_ineg, Op.n_ineg_o, Op.n_inot, Op.n_iinc,
  Op.n_idec, Op.n_ibits, Op.n_isize, Op.n_iflt,
  Op.n_eneg, Op.n_enot, Op.n_ebits, Op.n_esize,
  Op.n_eflt, Op.n_dneg, Op.b_if_int, Op.b_if_eint,
  Op.b_if_float, Op.r_load_int, Op.r_store_int, Op.r_load_float,
  Op.r_store_float, Op.r_load_bool, Op.r_load_m_binops, Op.r_load_f_binops,
  Op.r_copy, Op.n_ipopcnt, Op.a_instance, Op.a_kind,
  Op.a_method, Op.a_receiver_method, Op.a_type, Op.a_function,
  Op.a_equal, Op.a_not_equal, Op.a_less, Op.a_less_equal,
  Op.a_greater, Op.a_greater_equal
]

/-- The three-operand opcodes whose operands 1, 2 and 3 are biased by
`stack_size` (register-offset `switch` in `Interpreter::prepare`, pass 2). -/
def regBias3 : List Op := [
  Op.n_iadd, Op.n_isub, Op.n_imul, Op.n_idiv,
  Op.n_imod, Op.n_iand, Op.n_ior, Op.n_ixor,
  Op.n_ishl, Op.n_ishr, Op.n_iadd_o, Op.n_isub_o,
  Op.n_imul_o, Op.n_idiv_o, Op.n_imod_o, Op.n_idivmod,
  Op.n_ipow_o, Op.n_ishl_o, Op.n_ishr_o, Op.n_icmp,
  Op.n_ieq, Op.n_ine, Op.n_ilt, Op.n_ile,
  Op.n_igt, Op.n_ige, Op.n_istr, Op.n_promote,
  Op.n_demote, Op.n_eadd, Op.n_esub, Op.n_emul,
  Op.n_ediv, Op.n_emod, Op.n_edivmod, Op.n_epow,
  Op.n_eand, Op.n_eor, Op.n_exor, Op.n_eshl,
  Op.n_eshr, Op.n_epopcnt, Op.n_ecmp, Op.n_eeq,
  Op.n_ene, Op.n_elt, Op.n_ele, Op.n_egt,
  Op.n_ege, Op.n_estr, Op.n_dadd, Op.n_dsub,
  Op.n_dmul, Op.n_ddiv, Op.n_dmod, Op.n_ddivmod,
  Op.n_dpow, Op.n_dcmp, Op.n_deq, Op.n_dne,
  Op.n_dlt, Op.n_dle, Op.n_dgt, Op.n_dge,
  Op.n_dstr
]

/-- The opcodes counted as reference slots in pass 1 of `Interpreter::prepare`. -/
def refCountOps : List Op := [
  Op.create_block, Op.push_literal, Op.push_memo, Op.check_serial,
  Op.check_serial_private, Op.send_super_stack_with_block, Op.send_super_stack_with_splat, Op.zsuper,
  Op.send_vcall, Op.send_method, Op.send_stack, Op.send_stack_with_block,
  Op.send_stack_with_splat, Op.object_to_s, Op.push_const, Op.find_const,
  Op.setup_unwind, Op.unwind, Op.b_if_serial, Op.r_load_literal
]

/-- The send variants, serial-check variants, `object_to_s` and `b_if_serial`:
the opcodes that allocate a call site in pass 2 of `Interpreter::prepare`. -/
def sendOps : List Op := [
  Op.send_super_stack_with_block, Op.send_super_stack_with_splat, Op.zsuper, Op.send_vcall,
  Op.send_method, Op.send_stack, Op.send_stack_with_block, Op.send_stack_with_splat,
  Op.object_to_s, Op.check_serial, Op.check_serial_private, Op.b_if_serial
]

/-- The super-send opcodes, which set the local `is_super` flag. -/
def superOps : List Op := [
  Op.send_super_stack_with_block, Op.send_super_stack_with_splat, Op.zsuper
]

/-- The opcodes that resolve a symbol literal in place without recording a
reference slot (`set_ivar`, `push_ivar`, `set_const`, `set_const_at`). -/
def ivarLiteralOps : List Op := [
  Op.set_ivar, Op.push_ivar, Op.set_const, Op.set_const_at
]

/-- The opcodes that record a reference slot at `ip+1` during pass 2. -/
def refRecordOps : List Op := [
  Op.send_super_stack_with_block, Op.send_super_stack_with_splat, Op.zsuper, Op.send_vcall,
  Op.send_method, Op.send_stack, Op.send_stack_with_block, Op.send_stack_with_splat,
  Op.object_to_s, Op.check_serial, Op.check_serial_private, Op.b_if_serial,
  Op.push_memo, Op.push_literal, Op.create_block, Op.push_const,
  Op.find_const, Op.setup_unwind, Op.unwind
]

/-- Modelled from the spec: opcode widths ("width 1-4 counts the header plus
operands") are decoded from the opcode table, which is not part of the
sources; widths are assigned consistently with the operand positions that
`Interpreter::prepare` reads and writes for each opcode. -/
def width1Ops : List Op := [
  Op.allow_private, Op.ret
]

def width2Ops : List Op := [
  Op.create_block, Op.push_literal, Op.push_memo, Op.zsuper,
  Op.send_vcall, Op.send_method, Op.object_to_s, Op.push_const,
  Op.find_const, Op.unwind, Op.r_load_stack, Op.r_store_stack,
  Op.r_load_self, Op.r_load_neg1, Op.r_load_0, Op.r_load_1,
  Op.r_load_2, Op.r_load_false, Op.r_load_true, Op.r_ret,
  Op.m_log, Op.push_int, Op.push_tagged_nil, Op.set_ivar,
  Op.push_ivar, Op.set_const, Op.set_const_at, Op.m_counter
]

def width3Ops : List Op := [
  Op.check_serial, Op.check_serial_private, Op.send_super_stack_with_block, Op.send_super_stack_with_splat,
  Op.send_stack, Op.send_stack_with_block, Op.send_stack_with_splat, Op.setup_unwind,
  Op.r_load_literal, Op.b_if, Op.r_load_local, Op.r_store_local,
  Op.r_load_nil, Op.n_ineg, Op.n_ineg_o, Op.n_inot,
  Op.n_iinc, Op.n_idec, Op.n_ibits, Op.n_isize,
  Op.n_iflt, Op.n_eneg, Op.n_enot, Op.n_ebits,
  Op.n_esize, Op.n_eflt, Op.n_dneg, Op.b_if_int,
  Op.b_if_eint, Op.b_if_float, Op.r_load_int, Op.r_store_int,
  Op.r_load_float, Op.r_store_float, Op.r_load_bool, Op.r_load_m_binops,
  Op.r_load_f_binops, Op.r_copy, Op.n_ipopcnt, Op.a_instance,
  Op.a_kind, Op.a_method, Op.a_receiver_method, Op.a_type,
  Op.a_function, Op.a_equal, Op.a_not_equal, Op.a_less,
  Op.a_less_equal, Op.a_greater, Op.a_greater_equal, Op.invoke_primitive
]

/-- Modelled from the spec: the width of an instruction, decoded from the
opcode table, never from the stream. -/
def instWidth (op : Op) : Nat :=
  if op ∈ width1Ops then 1
  else if op ∈ width2Ops then 2
  else if op ∈ width3Ops then 3
  else 4

/-- Heap values stored in the literals pool. -/
inductive Obj where
  | str : String → Obj
  | sym : String → Obj
  | code : Nat → Obj
  | other : Nat → Obj
deriving DecidableEq, Repr

/-- The immutable compiled-code input of `Interpreter::prepare`: the literals
tuple, the opcode word stream, the declared stack size and the serial. -/
structure CompiledCode where
  literals : List Obj
  opcodes : List Nat
  stack_size : Nat
  serial : Nat
deriving DecidableEq, Repr

/-- Modelled from the spec: `CallSite::create(state, name, serial, ip)`
(class/call_site.hpp is not part of the sources) creates a fresh empty call
site bound to the name, the serial and the instruction pointer, with all
privacy/super/vcall flags clear until the setters are called. -/
structure CallSite where
  name : Option String
  serial : Nat
  ip : Nat
  is_private : Bool
  is_super : Bool
  is_vcall : Bool
deriving DecidableEq, Repr

/-- Modelled from the spec: `ConstantCache::empty(state, name, compiled_code, ip)`
creates an empty constant cache bound to the name, the compiled code and the
instruction pointer. -/
structure ConstantCache where
  name : String
  code : CompiledCode
  ip : Nat
deriving DecidableEq, Repr

/-- Modelled from the spec: an unwind site carries a handler instruction
pointer and an unwind type; the type is the raw operand word
(`static_cast<UnwindSite::UnwindType>`). -/
structure UnwindSite where
  handler_ip : Nat
  unwind_type : Nat
deriving DecidableEq, Repr

/-- The `UnwindSite::eNone` unwind type. -/
def UnwindSite.eNone : Nat := 0

/-- A word of the prepared (dispatch-ready) stream.  A word holds either a raw
operand integer, a handler token, a heap reference obtained from the literals
pool, a boxed small integer, a tagged nil pattern, a primitive invoker
function pointer, or an installed site pointer. -/
inductive Word where
  | int : Nat → Word
  | handler : Op → Word
  | ref : Obj → Word
  | fixnum : Nat → Word
  | nilTag : Nat → Nat → Word
  | invoker : String → Word
  | site : CallSite → Word
  | ccache : ConstantCache → Word
  | usite : UnwindSite → Word
  | counter : Nat → Word
deriving DecidableEq, Repr

/-- The machine-code object produced by `Interpreter::prepare`. -/
structure MachineCode where
  stream : List Word
  references : List Nat
  references_count : Nat
  call_sites : List (Nat × CallSite)
  constant_caches : List (Nat × ConstantCache)
  unwind_sites : List (Nat × UnwindSite)
  measurements : List Nat
  call_site_count : Nat
  constant_cache_count : Nat
  unwind_site_count : Nat
  serial : Nat
  stack_size : Nat
  total : Nat
deriving DecidableEq, Repr

/-- Failure of `Interpreter::prepare` on a malformed stream: unknown opcode id,
an operand or opcode index out of range, or a literal of the wrong type. -/
inductive PrepareError where
  | unknownOpcode
  | boundsError
  | castError
deriving DecidableEq, Repr

/-- Decidable equality for `Except`, for evaluating concrete runs. -/
instance {ε α : Type} [DecidableEq ε] [DecidableEq α] : DecidableEq (Except ε α) := fun a b =>
  match a, b with
  | Except.error e1, Except.error e2 =>
    if h : e1 = e2 then Decidable.isTrue (by rw [h])
    else Decidable.isFalse (fun hc => h (by cases hc; rfl))
  | Except.error e1, Except.ok v2 => Decidable.isFalse (fun hc => Except.noConfusion hc)
  | Except.ok v1, Except.error e2 => Decidable.isFalse (fun hc => Except.noConfusion hc)
  | Except.ok v1, Except.ok v2 =>
    if h : v1 = v2 then Decidable.isTrue (by rw [h])
    else Decidable.isFalse (fun hc => h (by cases hc; rfl))

/-- Error-propagating left fold, the shape of the per-instruction loops of
`Interpreter::prepare`. -/
def foldE (f : σ → α → Except ε σ) : σ → List α → Except ε σ
  | s, [] => Except.ok s
  | s, a :: l =>
    match f s a with
    | Except.error e => Except.error e
    | Except.ok s1 => foldE f s1 l

/-- Walk the opcode stream reading each instruction header and its width from
the opcode table, collecting the `(ip, opcode)` headers in order; the loop
head shared by both passes of `Interpreter::prepare`. -/
def scanHeaders (ops : List Nat) (total : Nat) : Nat → Nat → Except PrepareError (List (Nat × Op))
  | 0, ip => if ip < total then Except.error PrepareError.boundsError else Except.ok []
  | fuel + 1, ip =>
    if ip < total then
      match ops[ip]? with
      | none => Except.error PrepareError.boundsError
      | some w =>
        match decodeOp w with
        | none => Except.error PrepareError.unknownOpcode
        | some op =>
          match scanHeaders ops total fuel (ip + instWidth op) with
          | Except.error e => Except.error e
          | Except.ok rest => Except.ok ((ip, op) :: rest)
    else Except.ok []

/-- The headers of a compiled code's instruction stream. -/
def headersOf (cc : CompiledCode) : Except PrepareError (List (Nat × Op)) :=
  scanHeaders cc.opcodes cc.opcodes.length cc.opcodes.length 0

/-- State of pass 1 of `Interpreter::prepare`: the partially written stream
and the reference-slot count. -/
structure Pass1State where
  stream : List Word
  rcount : Nat
deriving DecidableEq, Repr

/-- Copy one raw operand word from the input opcode tuple into the stream
(`opcodes[ip + k] = as<Fixnum>(ops->at(state, ip + k))->to_native()`). -/
def copyOperand (ops : List Nat) (stream : List Word) (k : Nat) : Except PrepareError (List Word) :=
  match ops[k]? with
  | some v => Except.ok (stream.set k (Word.int v))
  | none => Except.error PrepareError.boundsError

/-- Copy the operand words of one instruction, mirroring the fall-through
`switch(width)` of pass 1 (width 4 copies operand 3, then 2, then 1). -/
def copyOperands (ops : List Nat) (stream : List Word) (ip : Nat) : Nat → Except PrepareError (List Word)
  | 4 =>
    match copyOperand ops stream (ip + 3) with
    | Except.error e => Except.error e
    | Except.ok s3 =>
      match copyOperand ops s3 (ip + 2) with
      | Except.error e => Except.error e
      | Except.ok s2 => copyOperand ops s2 (ip + 1)
  | 3 =>
    match copyOperand ops stream (ip + 2) with
    | Except.error e => Except.error e
    | Except.ok s2 => copyOperand ops s2 (ip + 1)
  | 2 => copyOperand ops stream (ip + 1)
  | _ => Except.ok stream

/-- One instruction of pass 1: write the handler token at the header, copy the
operand words, and count a reference slot for the reference-producing opcodes.
A width-1 instruction `continue`s before the reference-count `switch`. -/
def pass1Step (ops : List Nat) (s : Pass1State) : Nat × Op → Except PrepareError Pass1State
  | (ip, op) =>
    if instWidth op = 1 then
      Except.ok { stream := s.stream.set ip (Word.handler op), rcount := s.rcount }
    else
      match copyOperands ops (s.stream.set ip (Word.handler op)) ip (instWidth op) with
      | Except.error e => Except.error e
      | Except.ok stream1 =>
        Except.ok { stream := stream1,
                    rcount := if op ∈ refCountOps then s.rcount + 1 else s.rcount }

/-- The initial pass-1 state: a zeroed stream of `total` words. -/
def pass1Init (cc : CompiledCode) : Pass1State :=
  { stream := List.replicate cc.opcodes.length (Word.int 0), rcount := 0 }

/-- State of pass 2 of `Interpreter::prepare`: the stream being rewritten, the
reference-slot array written so far, the site counters, the local
`allow_private` / `is_super` flags, and the installed site tables. -/
structure Pass2State where
  stream : List Word
  references : List Nat
  calls_count : Nat
  constants_count : Nat
  unwind_count : Nat
  allow_private : Bool
  is_super : Bool
  call_sites : List (Nat × CallSite)
  constant_caches : List (Nat × ConstantCache)
  unwind_sites : List (Nat × UnwindSite)
  measurements : List Nat
deriving DecidableEq, Repr

/-- The initial pass-2 state over the stream produced by pass 1. -/
def pass2Init (stream : List Word) : Pass2State :=
  { stream := stream, references := [], calls_count := 0, constants_count := 0,
    unwind_count := 0, allow_private := false, is_super := false,
    call_sites := [], constant_caches := [], unwind_sites := [], measurements := [] }

/-- Add `stack_size` to the operand word at index `k`
(`opcodes[ip + k] += stack_size`). -/
def biasAt (stack_size : Nat) (stream : List Word) (k : Nat) : List Word :=
  match stream[k]? with
  | some (Word.int n) => stream.set k (Word.int (n + stack_size))
  | _ => stream

/-- Read an operand word as a raw integer. -/
def operandNat (stream : List Word) (k : Nat) : Except PrepareError Nat :=
  match stream[k]? with
  | some (Word.int n) => Except.ok n
  | _ => Except.error PrepareError.castError

/-- Fetch a literal from the literals tuple; an operand out of literal range
is a preparation failure. -/
def literalAt (lits : List Obj) (idx : Nat) : Except PrepareError Obj :=
  match lits[idx]? with
  | some v => Except.ok v
  | none => Except.error PrepareError.boundsError

/-- The symbol name of a heap value, if it is a symbol (`try_as<Symbol>`). -/
def symName : Obj → Option String
  | Obj.sym t => some t
  | _ => none

/-- The call site that pass 2 creates for a send-group opcode at `ip`, given
the values of the local `allow_private` / `is_super` flags when the
instruction is reached: privacy/super/vcall flags are set from the locals,
with `send_vcall`, `object_to_s` and `b_if_serial` forcing the private flag
and `send_vcall` setting the vcall flag. -/
def sendSite (cc : CompiledCode) (ip : Nat) (op : Op) (v : Obj) (ap su : Bool) : CallSite :=
  { name := symName v, serial := cc.serial, ip := ip,
    is_private := if op = Op.send_vcall ∨ op = Op.object_to_s ∨ op = Op.b_if_serial then true
                  else ap,
    is_super := if op ∈ superOps then true else su,
    is_vcall := if op = Op.send_vcall then true else false }

/-- The register-offset `switch` of pass 2: bias register operands by
`stack_size`; `r_load_nil` also writes the tagged nil pattern into operand 2;
`r_load_literal` records `ip+2` as a reference slot, resolves the literal
index in operand 2 and biases operand 1. -/
def passA (cc : CompiledCode) (nil_id : Nat) (s : Pass2State) (ip : Nat) (op : Op) :
    Except PrepareError Pass2State :=
  if op = Op.b_if_serial then
    Except.ok { s with stream := biasAt cc.stack_size s.stream (ip + 2) }
  else if op ∈ regBias1 then
    Except.ok { s with stream := biasAt cc.stack_size s.stream (ip + 1) }
  else if op = Op.r_load_nil then
    let st := (biasAt cc.stack_size s.stream (ip + 1)).set (ip + 2) (Word.nilTag nil_id ip)
    Except.ok { s with stream := st }
  else if op = Op.r_load_literal then
    match operandNat s.stream (ip + 2) with
    | Except.error e => Except.error e
    | Except.ok idx =>
      match literalAt cc.literals idx with
      | Except.error e => Except.error e
      | Except.ok v =>
        Except.ok { s with
          references := s.references ++ [ip + 2],
          stream := biasAt cc.stack_size (s.stream.set (ip + 2) (Word.ref v)) (ip + 1) }
  else if op ∈ regBias2 then
    let st := biasAt cc.stack_size (biasAt cc.stack_size s.stream (ip + 1)) (ip + 2)
    Except.ok { s with stream := st }
  else if op ∈ regBias3 then
    let st := biasAt cc.stack_size (biasAt cc.stack_size (biasAt cc.stack_size s.stream (ip + 1)) (ip + 2)) (ip + 3)
    Except.ok { s with stream := st }
  else Except.ok s

/-- The per-opcode action `switch` of pass 2: literal resolution, boxing,
call-site / constant-cache / unwind-site creation and installation, and the
local `allow_private` / `is_super` flag protocol.  Site installation
(`store_call_site`, `store_constant_cache`, `store_unwind_site`,
modelled from the spec since machine_code.cpp is not part of the sources)
appends the site to the corresponding machine-code table indexed by `ip` and
installs the site pointer in the stream at `ip+1`. -/
def passB (cc : CompiledCode) (nil_id : Nat) (s : Pass2State) (ip : Nat) (op : Op) :
    Except PrepareError Pass2State :=
  if op = Op.push_int then
    match operandNat s.stream (ip + 1) with
    | Except.error e => Except.error e
    | Except.ok n => Except.ok { s with stream := s.stream.set (ip + 1) (Word.fixnum n) }
  else if op = Op.push_tagged_nil then
    Except.ok { s with stream := s.stream.set (ip + 1) (Word.nilTag nil_id ip) }
  else if op = Op.create_block then
    match operandNat s.stream (ip + 1) with
    | Except.error e => Except.error e
    | Except.ok idx =>
      match literalAt cc.literals idx with
      | Except.error e => Except.error e
      | Except.ok v =>
        match v with
        | Obj.code c =>
          Except.ok { s with references := s.references ++ [ip + 1],
                             stream := s.stream.set (ip + 1) (Word.ref (Obj.code c)) }
        | Obj.str t =>
          Except.ok { s with references := s.references ++ [ip + 1],
                             stream := s.stream.set (ip + 1) (Word.ref (Obj.str t)) }
        | _ => Except.error PrepareError.castError
  else if op = Op.push_memo ∨ op = Op.push_literal then
    match operandNat s.stream (ip + 1) with
    | Except.error e => Except.error e
    | Except.ok idx =>
      match literalAt cc.literals idx with
      | Except.error e => Except.error e
      | Except.ok v =>
        Except.ok { s with references := s.references ++ [ip + 1],
                           stream := s.stream.set (ip + 1) (Word.ref v) }
  else if op ∈ ivarLiteralOps then
    match operandNat s.stream (ip + 1) with
    | Except.error e => Except.error e
    | Except.ok idx =>
      match literalAt cc.literals idx with
      | Except.error e => Except.error e
      | Except.ok v =>
        match v with
        | Obj.sym t => Except.ok { s with stream := s.stream.set (ip + 1) (Word.ref (Obj.sym t)) }
        | _ => Except.error PrepareError.castError
  else if op = Op.invoke_primitive then
    match operandNat s.stream (ip + 1) with
    | Except.error e => Except.error e
    | Except.ok idx =>
      match literalAt cc.literals idx with
      | Except.error e => Except.error e
      | Except.ok v =>
        match v with
        | Obj.sym t => Except.ok { s with stream := s.stream.set (ip + 1) (Word.invoker t) }
        | _ => Except.error PrepareError.castError
  else if op = Op.allow_private then
    Except.ok { s with allow_private := true }
  else if op ∈ sendOps then
    match operandNat s.stream (ip + 1) with
    | Except.error e => Except.error e
    | Except.ok idx =>
      match literalAt cc.literals idx with
      | Except.error e => Except.error e
      | Except.ok v =>
        let su := if op ∈ superOps then true else s.is_super
        let ap := if op = Op.send_vcall ∨ op = Op.object_to_s ∨ op = Op.b_if_serial then true
                  else s.allow_private
        let site : CallSite :=
          { name := symName v, serial := cc.serial, ip := ip,
            is_private := ap, is_super := su,
            is_vcall := if op = Op.send_vcall then true else false }
        Except.ok { s with
          references := s.references ++ [ip + 1],
          calls_count := s.calls_count + 1,
          call_sites := s.call_sites ++ [(ip, site)],
          stream := s.stream.set (ip + 1) (Word.site site),
          is_super := false,
          allow_private := false }
  else if op = Op.push_const ∨ op = Op.find_const then
    match operandNat s.stream (ip + 1) with
    | Except.error e => Except.error e
    | Except.ok idx =>
      match literalAt cc.literals idx with
      | Except.error e => Except.error e
      | Except.ok v =>
        match v with
        | Obj.sym t =>
          let cache : ConstantCache := { name := t, code := cc, ip := ip }
          Except.ok { s with
            references := s.references ++ [ip + 1],
            constants_count := s.constants_count + 1,
            constant_caches := s.constant_caches ++ [(ip, cache)],
            stream := s.stream.set (ip + 1) (Word.ccache cache) }
        | _ => Except.error PrepareError.castError
  else if op = Op.setup_unwind then
    match operandNat s.stream (ip + 1) with
    | Except.error e => Except.error e
    | Except.ok handler_ip =>
      match operandNat s.stream (ip + 2) with
      | Except.error e => Except.error e
      | Except.ok utype =>
        let us : UnwindSite := { handler_ip := handler_ip, unwind_type := utype }
        Except.ok { s with
          references := s.references ++ [ip + 1],
          unwind_count := s.unwind_count + 1,
          unwind_sites := s.unwind_sites ++ [(ip, us)],
          stream := s.stream.set (ip + 1) (Word.usite us) }
  else if op = Op.unwind then
    let us : UnwindSite := { handler_ip := 0, unwind_type := UnwindSite.eNone }
    Except.ok { s with
      references := s.references ++ [ip + 1],
      unwind_count := s.unwind_count + 1,
      unwind_sites := s.unwind_sites ++ [(ip, us)],
      stream := s.stream.set (ip + 1) (Word.usite us) }
  else if op = Op.m_counter then
    Except.ok { s with
      measurements := s.measurements ++ [ip],
      stream := s.stream.set (ip + 1) (Word.counter ip) }
  else Except.ok s

/-- One instruction of pass 2: the register-offset `switch` followed by the
per-opcode action `switch`. -/
def pass2Step (cc : CompiledCode) (nil_id : Nat) (s : Pass2State) :
    Nat × Op → Except PrepareError Pass2State
  | (ip, op) =>
    match passA cc nil_id s ip op with
    | Except.error e => Except.error e
    | Except.ok s1 => passB cc nil_id s1 ip op

/-- `Interpreter::prepare`: pass 1 installs handler tokens, copies operands and
counts reference slots; the reference-slot array is then allocated with the
counted size; pass 2 rewrites operands and installs sites; finally the
declared site counts are stored.  The machine code carries the compiled
code's serial and stack size (modelled from the spec). -/
def prepare (cc : CompiledCode) (nil_id : Nat) : Except PrepareError MachineCode :=
  match headersOf cc with
  | Except.error e => Except.error e
  | Except.ok hs =>
    match foldE (pass1Step cc.opcodes) (pass1Init cc) hs with
    | Except.error e => Except.error e
    | Except.ok s1 =>
      match foldE (pass2Step cc nil_id) (pass2Init s1.stream) hs with
      | Except.error e => Except.error e
      | Except.ok s2 =>
        Except.ok
          { stream := s2.stream,
            references := s2.references,
            references_count := s1.rcount,
            call_sites := s2.call_sites,
            constant_caches := s2.constant_caches,
            unwind_sites := s2.unwind_sites,
            measurements := s2.measurements,
            call_site_count := s2.calls_count,
            constant_cache_count := s2.constants_count,
            unwind_site_count := s2.unwind_count,
            serial := cc.serial,
            stack_size := cc.stack_size,
            total := cc.opcodes.length }

/-- The payload of a language exception: the three surface constructors the
core consumes (`make_type_error`, `make_interpreter_error`) plus exceptions
raised by the executing program itself. -/
inductive ExcPayload where
  | typeErr : Nat → Obj → String → ExcPayload
  | interpErr : String → ExcPayload
  | userExc : Nat → ExcPayload
deriving DecidableEq, Repr

/-- A language exception: a payload plus a locations field; `none` models a
nil locations array (`locations()->nil_p()`). -/
structure Exc where
  payload : ExcPayload
  locations : Option (List Nat)
deriving DecidableEq, Repr

/-- The frame's variable scope, reduced to the one observable effect the
dispatcher has on it: whether `flush_to_heap` has been called. -/
structure VariableScope where
  heap_flushed : Bool
deriving DecidableEq, Repr

/-- The call frame as bound by `Interpreter::execute`: the instruction
pointer, the stack pointer (initialized to one before the stack base), the
bound machine code and the variable scope. -/
structure ExecCallFrame where
  ip : Nat
  stack_ptr : Int
  machine_code : Option MachineCode
  scope : VariableScope
deriving DecidableEq, Repr

/-- The machine state visible to `Interpreter::execute`: the pending raised
exception and the current call stack (the source of location snapshots). -/
structure MState where
  raised_exception : Option Exc
  call_stack : List Nat
deriving DecidableEq, Repr

/-- Modelled from the spec: `Location::from_call_stack(state)` produces a
call-stack location snapshot. -/
def locationFromCallStack (state : MState) : List Nat := state.call_stack

/-- Modelled from the spec: the outcome of the initial threaded dispatch
`((instructions::Instruction)opcodes[call_frame->ip()])(state, call_frame,
opcodes)`.  The handlers themselves are external to this core; the dispatch
either returns a value or fails in one of the four ways trapped by
`Interpreter::execute`: a host `TypeError`, a `RubyException` in flight, any
other host `std::exception`, or an unidentified host failure. -/
inductive DispatchOutcome where
  | ret : Int → DispatchOutcome
  | typeError : Nat → Obj → String → DispatchOutcome
  | rubyException : Exc → DispatchOutcome
  | stdException : String → DispatchOutcome
  | unknownException : DispatchOutcome
deriving DecidableEq, Repr

/-- `Interpreter::execute`: initialize the frame's stack pointer to one before
the base, bind the machine code and the scratch interpreter state, dispatch,
and translate trapped host failures into language exceptions raised on the
state.  Returns the updated state, the updated frame and the return value. -/
def execute (state : MState) (frame : ExecCallFrame) (machine_code : MachineCode)
    (outcome : DispatchOutcome) : MState × ExecCallFrame × Int :=
  let frame0 := { frame with stack_ptr := -1, machine_code := some machine_code }
  match outcome with
  | DispatchOutcome.ret v => (state, frame0, v)
  | DispatchOutcome.typeError t o reason =>
    let exc : Exc := { payload := ExcPayload.typeErr t o reason,
                       locations := some (locationFromCallStack state) }
    let frame1 := { frame0 with scope := { heap_flushed := true } }
    ({ state with raised_exception := some exc }, frame1, 0)
  | DispatchOutcome.rubyException e =>
    let exc := if e.locations = none then
                 { e with locations := some (locationFromCallStack state) }
               else e
    ({ state with raised_exception := some exc }, frame0, 0)
  | DispatchOutcome.stdException what =>
    let exc : Exc := { payload := ExcPayload.interpErr what,
                       locations := some (locationFromCallStack state) }
    let frame1 := { frame0 with scope := { heap_flushed := true } }
    ({ state with raised_exception := some exc }, frame1, 0)
  | DispatchOutcome.unknownException =>
    let exc : Exc := { payload := ExcPayload.interpErr "unknown C++ exception thrown",
                       locations := some (locationFromCallStack state) }
    let frame1 := { frame0 with scope := { heap_flushed := true } }
    ({ state with raised_exception := some exc }, frame1, 0)

/-- The method-missing reasons of a call-site cache. -/
inductive MethodMissingReason where
  | eNone | ePrivate | eProtected | eVCall | eSuper | eNormal
deriving DecidableEq, Repr

/-- The fields of a `MonoInlineCache` set by `MonoInlineCache::initialize`
(machine/builtin/mono_inline_cache.hpp); `none` models a nil reference. -/
structure MonoInlineCache where
  receiver_raw : Nat
  receiver_class : Option Nat
  stored_module : Option Nat
  method : Option Nat
  method_missing : MethodMissingReason
  hits : Int
deriving DecidableEq, Repr

/-- `MonoInlineCache::initialize`: the freshly initialized cache. -/
def MonoInlineCache.initFields : MonoInlineCache :=
  { receiver_raw := 0, receiver_class := none, stored_module := none,
    method := none, method_missing := MethodMissingReason.eNone, hits := 0 }

/-- The fields of a `JITCompileRequest` set by `JITCompileRequest::initialize`
(machine/builtin/jit.hpp); `none` models a nil reference or a NULL waiter. -/
structure JITCompileRequest where
  method : Option Nat
  receiver_class : Option Nat
  block_env : Option Nat
  waiter : Option Nat
  hits : Int
  is_block : Bool
deriving DecidableEq, Repr

/-- `JITCompileRequest::initialize`: the freshly initialized request. -/
def JITCompileRequest.initFields : JITCompileRequest :=
  { method := none, receiver_class := none, block_env := none,
    waiter := none, hits := 0, is_block := false }

/-- The reference slots that pass 2 records for one instruction header:
`r_load_literal` records `ip+2`; the send variants, literal pushes,
`create_block`, the constant lookups and the unwind opcodes record `ip+1`. -/
def refsOfHeader (h : Nat × Op) : List Nat :=
  if h.2 = Op.r_load_literal then [h.1 + 2]
  else if h.2 ∈ refRecordOps then [h.1 + 1]
  else []

/-- The reference slots pass 2 records over a header list, in order. -/
def refsOf : List (Nat × Op) → List Nat
  | [] => []
  | h :: t => refsOfHeader h ++ refsOf t

/-- The pass-1 reference-slot contribution of one opcode: width-1 instructions
skip the count, the opcodes of `refCountOps` count one slot. -/
def countRef1 (op : Op) : Nat :=
  if instWidth op = 1 then 0 else if op ∈ refCountOps then 1 else 0

/-- The pass-1 reference-slot count over a header list. -/
def sumRef1 : List (Nat × Op) → Nat
  | [] => 0
  | h :: t => countRef1 h.2 + sumRef1 t

/-- The number of headers whose opcode belongs to a group. -/
def countOps (g : List Op) : List (Nat × Op) → Nat
  | [] => 0
  | h :: t => (if h.2 ∈ g then 1 else 0) + countOps g t

/-- The operand positions of an opcode that designate registers and are biased
by `stack_size` in the register-offset `switch` of pass 2. -/
def biasedOperands (op : Op) : List Nat :=
  if op = Op.b_if_serial then [2]
  else if op ∈ regBias1 then [1]
  else if op = Op.r_load_nil then [1]
  else if op = Op.r_load_literal then [1]
  else if op ∈ regBias2 then [1, 2]
  else if op ∈ regBias3 then [1, 2, 3]
  else []

/-- The opcodes acted on by the register-offset `switch` of pass 2. -/
def passAHandledOps : List Op :=
  Op.b_if_serial :: Op.r_load_nil :: Op.r_load_literal :: (regBias1 ++ regBias2 ++ regBias3)

/-- The opcodes acted on by the per-opcode action `switch` of pass 2. -/
def passBHandledOps : List Op :=
  [Op.push_int, Op.push_tagged_nil, Op.create_block, Op.push_memo, Op.push_literal,
   Op.set_ivar, Op.push_ivar, Op.set_const, Op.set_const_at,
   Op.invoke_primitive, Op.allow_private, Op.push_const, Op.find_const,
   Op.setup_unwind, Op.unwind, Op.m_counter] ++ sendOps

/-- The push-literal round-trip program of the spec: `[push_literal 0, ret]`
with literals `["hello"]` and `stack_size = 1`. -/
def ccPushLiteral : CompiledCode :=
  { literals := [Obj.str "hello"], opcodes := [opId Op.push_literal, 0, opId Op.ret],
    stack_size := 1, serial := 0 }

/-- The register-biasing program of the spec: `r_load_0 2` with
`stack_size = 3`. -/
def ccRLoad0 : CompiledCode :=
  { literals := [], opcodes := [opId Op.r_load_0, 2], stack_size := 3, serial := 0 }

/-- A one-instruction program whose `set_ivar` resolves the symbol literal at
index 0. -/
def ccSetIvar : CompiledCode :=
  { literals := [Obj.sym "x"], opcodes := [opId Op.set_ivar, 0], stack_size := 0, serial := 0 }

/-- A program with an `allow_private` prefix followed by a `send_method`. -/
def ccSend : CompiledCode :=
  { literals := [Obj.sym "plus"], opcodes := [opId Op.allow_private, opId Op.send_method, 0],
    stack_size := 1, serial := 5 }

/-- A program with one constant lookup and two unwind instructions. -/
def ccSites : CompiledCode :=
  { literals := [Obj.sym "K"],
    opcodes := [opId Op.push_const, 0, opId Op.setup_unwind, 6, 1, opId Op.unwind, 0],
    stack_size := 2, serial := 1 }

/-- A program with one `invoke_primitive` instruction. -/
def ccInvoke : CompiledCode :=
  { literals := [Obj.sym "prim"], opcodes := [opId Op.invoke_primitive, 0, 1],
    stack_size := 0, serial := 0 }

/-- An empty machine code used as the bound machine code in concrete
dispatch runs. -/
def mcEmpty : MachineCode :=
  { stream := [], references := [], references_count := 0, call_sites := [],
    constant_caches := [], unwind_sites := [], measurements := [],
    call_site_count := 0, constant_cache_count := 0, unwind_site_count := 0,
    serial := 0, stack_size := 0, total := 0 }

/-- A concrete machine state with a one-frame call stack and no pending
exception. -/
def msBase : MState := { raised_exception := none, call_stack := [3] }

/-- A concrete call frame whose variable scope has not been flushed. -/
def frameBase : ExecCallFrame :=
  { ip := 0, stack_ptr := 0, machine_code := none, scope := { heap_flushed := false } }

/-- A language exception already carrying a location set. -/
def excLocated : Exc := { payload := ExcPayload.userExc 4, locations := some [9] }

/-- A language exception carrying a non-nil but empty location set. -/
def excEmptyLoc : Exc := { payload := ExcPayload.userExc 7, locations := some [] }

theorem instWidth_pos : ∀ op : Op, 1 ≤ instWidth op := by decide

theorem instWidth_le_four : ∀ op : Op, instWidth op ≤ 4 := by decide

theorem width_regBias1 : ∀ op ∈ regBias1, 2 ≤ instWidth op := by decide

theorem width_regBias2 : ∀ op ∈ regBias2, instWidth op = 3 := by decide

theorem width_regBias3 : ∀ op ∈ regBias3, instWidth op = 4 := by decide

theorem width_refRecordOps : ∀ op ∈ refRecordOps, 2 ≤ instWidth op := by decide

theorem width_sendOps : ∀ op ∈ sendOps, 2 ≤ instWidth op := by decide

theorem scanHeaders_mem (ops : List Nat) (total : Nat) :
    ∀ fuel ip hs, scanHeaders ops total fuel ip = Except.ok hs →
      ∀ p ∈ hs, ip ≤ p.1 ∧ p.1 < total := by
  intro fuel
  induction fuel with
  | zero =>
    intro ip hs h p hp
    unfold scanHeaders at h
    split at h
    · exact absurd h (by simp)
    · cases h
      simp at hp
  | succ fuel ih =>
    intro ip hs h p hp
    unfold scanHeaders at h
    split at h
    case isFalse => cases h; simp at hp
    case isTrue hlt =>
      split at h
      next => exact absurd h (by simp)
      next w hw =>
        split at h
        next => exact absurd h (by simp)
        next op hd =>
          split at h
          next e he => exact absurd h (by simp)
          next rest hr =>
            cases h
            rcases List.mem_cons.mp hp with rfl | hp2
            · exact ⟨Nat.le_refl _, hlt⟩
            · have := ih (ip + instWidth op) rest hr p hp2
              have h1 := instWidth_pos op
              omega

theorem scanHeaders_chain (ops : List Nat) (total : Nat) :
    ∀ fuel ip hs, scanHeaders ops total fuel ip = Except.ok hs →
      List.Pairwise (fun a b : Nat × Op => a.1 + instWidth a.2 ≤ b.1) hs := by
  intro fuel
  induction fuel with
  | zero =>
    intro ip hs h
    unfold scanHeaders at h
    split at h
    · exact absurd h (by simp)
    · cases h; exact List.Pairwise.nil
  | succ fuel ih =>
    intro ip hs h
    unfold scanHeaders at h
    split at h
    case isFalse => cases h; exact List.Pairwise.nil
    case isTrue hlt =>
      split at h
      next => exact absurd h (by simp)
      next w hw =>
        split at h
        next => exact absurd h (by simp)
        next op hd =>
          split at h
          next e he => exact absurd h (by simp)
          next rest hr =>
            cases h
            refine List.Pairwise.cons ?_ (ih _ _ hr)
            intro b hb
            exact (scanHeaders_mem ops total fuel _ rest hr b hb).1

theorem pairwise_mem_rel {α : Type} {R : α → α → Prop} {l : List α} (h : List.Pairwise R l)
    {a b : α} (ha : a ∈ l) (hb : b ∈ l) : a = b ∨ R a b ∨ R b a := by
  induction l with
  | nil => simp at ha
  | cons x t ih =>
    rcases List.pairwise_cons.mp h with ⟨hx, ht⟩
    rcases List.mem_cons.mp ha with rfl | ha2
    · rcases List.mem_cons.mp hb with rfl | hb2
      · exact Or.inl rfl
      · exact Or.inr (Or.inl (hx _ hb2))
    · rcases List.mem_cons.mp hb with rfl | hb2
      · exact Or.inr (Or.inr (hx _ ha2))
      · exact ih ht ha2 hb2

theorem headers_op_unique {hs : List (Nat × Op)}
    (hch : List.Pairwise (fun a b : Nat × Op => a.1 + instWidth a.2 ≤ b.1) hs)
    {ip : Nat} {op op2 : Op} (h1 : (ip, op) ∈ hs) (h2 : (ip, op2) ∈ hs) : op = op2 := by
  rcases pairwise_mem_rel hch h1 h2 with heq | hr | hr
  · exact (Prod.mk.injEq _ _ _ _).mp heq |>.2
  · have := instWidth_pos op
    simp at hr
    omega
  · have := instWidth_pos op2
    simp at hr
    omega

theorem headers_gap {hs : List (Nat × Op)}
    (hch : List.Pairwise (fun a b : Nat × Op => a.1 + instWidth a.2 ≤ b.1) hs)
    {ip ip2 : Nat} {op op2 : Op} (h1 : (ip, op) ∈ hs) (h2 : (ip2, op2) ∈ hs)
    (hlt : ip < ip2) : ip + instWidth op ≤ ip2 := by
  rcases pairwise_mem_rel hch h1 h2 with heq | hr | hr
  · cases heq; omega
  · exact hr
  · have := instWidth_pos op2
    simp at hr
    omega

theorem foldE_append {σ α ε : Type} (f : σ → α → Except ε σ) (s : σ) (l1 l2 : List α) :
    foldE f s (l1 ++ l2) = match foldE f s l1 with
      | Except.error e => Except.error e
      | Except.ok s1 => foldE f s1 l2 := by
  induction l1 generalizing s with
  | nil => simp [foldE]
  | cons a t ih =>
    simp only [List.cons_append, foldE]
    cases f s a <;> simp [ih]

theorem foldE_ok_of_append {σ α ε : Type} {f : σ → α → Except ε σ} {s sfin : σ}
    {l1 l2 : List α} (h : foldE f s (l1 ++ l2) = Except.ok sfin) :
    ∃ smid, foldE f s l1 = Except.ok smid ∧ foldE f smid l2 = Except.ok sfin := by
  rw [foldE_append] at h
  cases hmid : foldE f s l1 with
  | error e => rw [hmid] at h; exact absurd h (by simp)
  | ok smid => rw [hmid] at h; exact ⟨smid, rfl, h⟩

theorem copyOperand_ok {ops : List Nat} {st st2 : List Word} {k : Nat}
    (h : copyOperand ops st k = Except.ok st2) :
    ∃ v, ops[k]? = some v ∧ st2 = st.set k (Word.int v) := by
  unfold copyOperand at h
  split at h
  next v hv => cases h; exact ⟨v, hv, rfl⟩
  next => exact absurd h (by simp)

theorem copyOperands_spec {ops : List Nat} {st st2 : List Word} {ip w : Nat}
    (hlen : st.length = ops.length) (hw : w ≤ 4)
    (h : copyOperands ops st ip w = Except.ok st2) :
    st2.length = st.length ∧
    (∀ k, k ≤ ip ∨ ip + w ≤ k → st2[k]? = st[k]?) ∧
    (∀ j, 1 ≤ j → j < w → ∃ v, ops[ip + j]? = some v ∧ st2[ip + j]? = some (Word.int v)) := by
  rcases w with _ | _ | _ | _ | _ | n
  · simp only [copyOperands] at h
    cases h
    exact ⟨rfl, fun k _ => rfl, fun j h1 h2 => absurd h2 (by omega)⟩
  · simp only [copyOperands] at h
    cases h
    exact ⟨rfl, fun k _ => rfl, fun j h1 h2 => absurd h1 (by omega)⟩
  · simp only [copyOperands] at h
    obtain ⟨v1, hv1, rfl⟩ := copyOperand_ok h
    have hlt1 : ip + 1 < st.length := by
      obtain ⟨hl, -⟩ := List.getElem?_eq_some.mp hv1
      omega
    refine ⟨by simp, ?_, ?_⟩
    · intro k hk
      exact List.getElem?_set_ne (by omega : ip + 1 ≠ k)
    · intro j h1 h2
      have hj : j = 1 := by omega
      subst hj
      exact ⟨v1, hv1, by simp [List.getElem?_set_self, hlt1]⟩
  · simp only [copyOperands] at h
    split at h
    next e he => exact absurd h (by simp)
    next s2a h2 =>
      obtain ⟨v2, hv2, rfl⟩ := copyOperand_ok h2
      obtain ⟨v1, hv1, rfl⟩ := copyOperand_ok h
      have hlt2 : ip + 2 < st.length := by
        obtain ⟨hl, -⟩ := List.getElem?_eq_some.mp hv2
        omega
      have hlt1 : ip + 1 < st.length := by
        obtain ⟨hl, -⟩ := List.getElem?_eq_some.mp hv1
        omega
      refine ⟨by simp, ?_, ?_⟩
      · intro k hk
        rw [List.getElem?_set_ne (by omega : ip + 1 ≠ k),
            List.getElem?_set_ne (by omega : ip + 2 ≠ k)]
      · intro j h1 h2
        have hj : j = 1 ∨ j = 2 := by omega
        rcases hj with rfl | rfl
        · exact ⟨v1, hv1, by simp [List.getElem?_set_self, hlt1]⟩
        · refine ⟨v2, hv2, ?_⟩
          rw [List.getElem?_set_ne (by omega : ip + 1 ≠ ip + 2)]
          simp [List.getElem?_set_self, hlt2]
  · simp only [copyOperands] at h
    split at h
    next e he => exact absurd h (by simp)
    next s3a h3 =>
      split at h
      next e he => exact absurd h (by simp)
      next s2a h2 =>
        obtain ⟨v3, hv3, rfl⟩ := copyOperand_ok h3
        obtain ⟨v2, hv2, rfl⟩ := copyOperand_ok h2
        obtain ⟨v1, hv1, rfl⟩ := copyOperand_ok h
        have hlt3 : ip + 3 < st.length := by
          obtain ⟨hl, -⟩ := List.getElem?_eq_some.mp hv3
          omega
        have hlt2 : ip + 2 < st.length := by
          obtain ⟨hl, -⟩ := List.getElem?_eq_some.mp hv2
          omega
        have hlt1 : ip + 1 < st.length := by
          obtain ⟨hl, -⟩ := List.getElem?_eq_some.mp hv1
          omega
        refine ⟨by simp, ?_, ?_⟩
        · intro k hk
          rw [List.getElem?_set_ne (by omega : ip + 1 ≠ k),
              List.getElem?_set_ne (by omega : ip + 2 ≠ k),
              List.getElem?_set_ne (by omega : ip + 3 ≠ k)]
        · intro j h1 h2
          have hj : j = 1 ∨ j = 2 ∨ j = 3 := by omega
          rcases hj with rfl | rfl | rfl
          · exact ⟨v1, hv1, by simp [List.getElem?_set_self, hlt1]⟩
          · refine ⟨v2, hv2, ?_⟩
            rw [List.getElem?_set_ne (by omega : ip + 1 ≠ ip + 2)]
            simp [List.getElem?_set_self, hlt2]
          · refine ⟨v3, hv3, ?_⟩
            rw [List.getElem?_set_ne (by omega : ip + 1 ≠ ip + 3),
                List.getElem?_set_ne (by omega : ip + 2 ≠ ip + 3)]
            simp [List.getElem?_set_self, hlt3]
  · exact absurd hw (by omega)

theorem countRef1_of_width_one {op : Op} (h : instWidth op = 1) : countRef1 op = 0 := by
  simp [countRef1, h]

theorem countRef1_of_width_ne_one {op : Op} (h : ¬ instWidth op = 1) :
    countRef1 op = if op ∈ refCountOps then 1 else 0 := by
  simp [countRef1, h]

theorem pass1Step_spec {ops : List Nat} {s s2 : Pass1State} {ip : Nat} {op : Op}
    (hlen : s.stream.length = ops.length) (hip : ip < ops.length)
    (h : pass1Step ops s (ip, op) = Except.ok s2) :
    s2.stream.length = s.stream.length ∧
    s2.rcount = s.rcount + countRef1 op ∧
    (∀ k, k < ip ∨ ip + instWidth op ≤ k → s2.stream[k]? = s.stream[k]?) ∧
    s2.stream[ip]? = some (Word.handler op) ∧
    (∀ j, 1 ≤ j → j < instWidth op →
      ∃ v, ops[ip + j]? = some v ∧ s2.stream[ip + j]? = some (Word.int v)) := by
  have hipst : ip < s.stream.length := by omega
  simp only [pass1Step] at h
  split at h
  next hw1 =>
    cases h
    refine ⟨by simp, by simp [countRef1_of_width_one hw1], ?_, ?_, ?_⟩
    · intro k hk
      refine List.getElem?_set_ne ?_
      rcases hk with hk | hk <;> omega
    · simp [List.getElem?_set_self, hipst]
    · intro j h1 h2
      rw [hw1] at h2
      omega
  next hw1 =>
    split at h
    next e he => exact absurd h (by simp)
    next st1 hcp =>
      cases h
      have hlen0 : (s.stream.set ip (Word.handler op)).length = ops.length := by
        simp [hlen]
      obtain ⟨hl, hfr, hval⟩ := copyOperands_spec hlen0 (instWidth_le_four op) hcp
      have hw2 : 1 ≤ instWidth op := instWidth_pos op
      refine ⟨by simp [hl, hlen0, hlen], ?_, ?_, ?_, ?_⟩
      · rw [countRef1_of_width_ne_one hw1]
        by_cases hc : op ∈ refCountOps <;> simp [hc]
      · intro k hk
        have hk2 : k ≤ ip ∨ ip + instWidth op ≤ k := by
          rcases hk with hk | hk
          · exact Or.inl (by omega)
          · exact Or.inr hk
        rw [hfr k hk2]
        refine List.getElem?_set_ne ?_
        rcases hk with hk | hk <;> omega
      · rw [hfr ip (Or.inl (Nat.le_refl ip))]
        simp [List.getElem?_set_self, hipst]
      · exact hval

theorem pass1_fold_spec {ops : List Nat} {hs : List (Nat × Op)} {s s2 : Pass1State}
    (hlen : s.stream.length = ops.length)
    (hmem : ∀ p ∈ hs, p.1 < ops.length)
    (h : foldE (pass1Step ops) s hs = Except.ok s2) :
    s2.stream.length = s.stream.length ∧ s2.rcount = s.rcount + sumRef1 hs := by
  induction hs generalizing s with
  | nil =>
    cases h
    simp [sumRef1]
  | cons p t ih =>
    simp only [foldE] at h
    split at h
    next e he => exact absurd h (by simp)
    next s1 hstep =>
      obtain ⟨ip, op⟩ := p
      obtain ⟨hl1, hr1, -, -, -⟩ :=
        pass1Step_spec hlen (hmem (ip, op) (List.mem_cons_self _ t)) hstep
      obtain ⟨hl2, hr2⟩ := ih (by omega)
        (fun q hq => hmem q (List.mem_cons_of_mem _ hq)) h
      constructor
      · omega
      · rw [hr2, hr1]
        simp [sumRef1]
        omega

theorem pass1_fold_frame_lo {ops : List Nat} {hs : List (Nat × Op)} {s s2 : Pass1State}
    {q k : Nat}
    (hlen : s.stream.length = ops.length)
    (hmem : ∀ p ∈ hs, p.1 < ops.length)
    (hq : ∀ p ∈ hs, q ≤ p.1) (hk : k < q)
    (h : foldE (pass1Step ops) s hs = Except.ok s2) :
    s2.stream[k]? = s.stream[k]? := by
  induction hs generalizing s with
  | nil => cases h; rfl
  | cons p t ih =>
    simp only [foldE] at h
    split at h
    next e he => exact absurd h (by simp)
    next s1 hstep =>
      obtain ⟨ip, op⟩ := p
      obtain ⟨hl1, -, hfr, -, -⟩ :=
        pass1Step_spec hlen (hmem (ip, op) (List.mem_cons_self _ t)) hstep
      have hq1 : q ≤ ip := hq (ip, op) (List.mem_cons_self _ t)
      rw [ih (by omega) (fun r hr => hmem r (List.mem_cons_of_mem _ hr))
            (fun r hr => hq r (List.mem_cons_of_mem _ hr)) h]
      exact hfr k (Or.inl (by omega))

theorem pass1_fold_frame_hi {ops : List Nat} {hs : List (Nat × Op)} {s s2 : Pass1State}
    {q k : Nat}
    (hlen : s.stream.length = ops.length)
    (hmem : ∀ p ∈ hs, p.1 < ops.length)
    (hq : ∀ p ∈ hs, p.1 + instWidth p.2 ≤ q) (hk : q ≤ k)
    (h : foldE (pass1Step ops) s hs = Except.ok s2) :
    s2.stream[k]? = s.stream[k]? := by
  induction hs generalizing s with
  | nil => cases h; rfl
  | cons p t ih =>
    simp only [foldE] at h
    split at h
    next e he => exact absurd h (by simp)
    next s1 hstep =>
      obtain ⟨ip, op⟩ := p
      obtain ⟨hl1, -, hfr, -, -⟩ :=
        pass1Step_spec hlen (hmem (ip, op) (List.mem_cons_self _ t)) hstep
      have hq1 : ip + instWidth op ≤ q := hq (ip, op) (List.mem_cons_self _ t)
      rw [ih (by omega) (fun r hr => hmem r (List.mem_cons_of_mem _ hr))
            (fun r hr => hq r (List.mem_cons_of_mem _ hr)) h]
      exact hfr k (Or.inr (by omega))

theorem biasAt_length (sz : Nat) (st : List Word) (k : Nat) :
    (biasAt sz st k).length = st.length := by
  unfold biasAt
  split <;> simp

theorem biasAt_frame {sz : Nat} {st : List Word} {k j : Nat} (h : k ≠ j) :
    (biasAt sz st k)[j]? = st[j]? := by
  unfold biasAt
  split
  · exact List.getElem?_set_ne h
  · rfl

theorem biasAt_val {sz : Nat} {st : List Word} {k n : Nat}
    (h : st[k]? = some (Word.int n)) :
    (biasAt sz st k)[k]? = some (Word.int (n + sz)) := by
  unfold biasAt
  rw [h]
  have hk : k < st.length := by
    obtain ⟨hl, -⟩ := List.getElem?_eq_some.mp h
    exact hl
  simp [List.getElem?_set_self, hk]

theorem passA_spec {cc : CompiledCode} {nil_id : Nat} {s s2 : Pass2State} {ip : Nat} {op : Op}
    (h : passA cc nil_id s ip op = Except.ok s2) :
    s2.stream.length = s.stream.length ∧
    (∀ k, k ≤ ip ∨ ip + instWidth op ≤ k → s2.stream[k]? = s.stream[k]?) ∧
    s2.references = s.references ++ (if op = Op.r_load_literal then [ip + 2] else []) ∧
    s2.calls_count = s.calls_count ∧
    s2.constants_count = s.constants_count ∧
    s2.unwind_count = s.unwind_count ∧
    s2.call_sites = s.call_sites ∧
    s2.constant_caches = s.constant_caches ∧
    s2.unwind_sites = s.unwind_sites ∧
    s2.measurements = s.measurements ∧
    s2.allow_private = s.allow_private ∧
    s2.is_super = s.is_super := by
  unfold passA at h
  split_ifs at h with h1 h2 h3 h4 h5 h6
  · subst h1
    cases h
    refine ⟨biasAt_length _ _ _, ?_, by simp, rfl, rfl, rfl, rfl, rfl, rfl, rfl, rfl, rfl⟩
    intro k hk
    have hw : instWidth Op.b_if_serial = 4 := by decide
    refine biasAt_frame ?_
    rcases hk with hk | hk <;> omega
  · cases h
    have hne : ¬ op = Op.r_load_literal := by
      rintro rfl
      revert h2
      decide
    have hw : 2 ≤ instWidth op := width_regBias1 op h2
    refine ⟨biasAt_length _ _ _, ?_, by simp [hne], rfl, rfl, rfl, rfl, rfl, rfl, rfl, rfl, rfl⟩
    intro k hk
    refine biasAt_frame ?_
    rcases hk with hk | hk <;> omega
  · subst h3
    cases h
    have hw : instWidth Op.r_load_nil = 3 := by decide
    refine ⟨by simp [biasAt_length], ?_, by simp, rfl, rfl, rfl, rfl, rfl, rfl, rfl, rfl, rfl⟩
    intro k hk
    rw [List.getElem?_set_ne (by rcases hk with hk | hk <;> omega : ip + 2 ≠ k)]
    refine biasAt_frame ?_
    rcases hk with hk | hk <;> omega
  · subst h4
    split at h
    next e he => exact absurd h (by simp)
    next idx hidx =>
      split at h
      next e he => exact absurd h (by simp)
      next v hv =>
        cases h
        have hw : instWidth Op.r_load_literal = 3 := by decide
        refine ⟨by simp [biasAt_length], ?_, by simp, rfl, rfl, rfl, rfl, rfl, rfl, rfl, rfl, rfl⟩
        intro k hk
        rw [biasAt_frame (by rcases hk with hk | hk <;> omega : ip + 1 ≠ k)]
        exact List.getElem?_set_ne (by rcases hk with hk | hk <;> omega : ip + 2 ≠ k)
  · cases h
    have hne : ¬ op = Op.r_load_literal := by
      rintro rfl
      revert h5
      decide
    have hw : instWidth op = 3 := width_regBias2 op h5
    refine ⟨by simp [biasAt_length], ?_, by simp [hne], rfl, rfl, rfl, rfl, rfl, rfl, rfl, rfl, rfl⟩
    intro k hk
    rw [biasAt_frame (by rcases hk with hk | hk <;> omega : ip + 2 ≠ k)]
    exact biasAt_frame (by rcases hk with hk | hk <;> omega : ip + 1 ≠ k)
  · cases h
    have hne : ¬ op = Op.r_load_literal := by
      rintro rfl
      revert h6
      decide
    have hw : instWidth op = 4 := width_regBias3 op h6
    refine ⟨by simp [biasAt_length], ?_, by simp [hne], rfl, rfl, rfl, rfl, rfl, rfl, rfl, rfl, rfl⟩
    intro k hk
    rw [biasAt_frame (by rcases hk with hk | hk <;> omega : ip + 3 ≠ k)]
    rw [biasAt_frame (by rcases hk with hk | hk <;> omega : ip + 2 ≠ k)]
    exact biasAt_frame (by rcases hk with hk | hk <;> omega : ip + 1 ≠ k)
  · cases h
    refine ⟨rfl, fun k hk => rfl, by simp [h4], rfl, rfl, rfl, rfl, rfl, rfl, rfl, rfl, rfl⟩

theorem sendOps_mem_refRecordOps : ∀ op ∈ sendOps, op ∈ refRecordOps := by decide

theorem sendOps_not_const : ∀ op ∈ sendOps, ¬ (op = Op.push_const ∨ op = Op.find_const) := by decide

theorem sendOps_not_unwind : ∀ op ∈ sendOps, ¬ (op = Op.setup_unwind ∨ op = Op.unwind) := by decide

theorem ivarOps_width : ∀ op ∈ ivarLiteralOps, instWidth op = 2 := by decide

theorem ivarOps_not_refRecord : ∀ op ∈ ivarLiteralOps, op ∉ refRecordOps := by decide

theorem ivarOps_not_send : ∀ op ∈ ivarLiteralOps, op ∉ sendOps := by decide

theorem ivarOps_not_const : ∀ op ∈ ivarLiteralOps, ¬ (op = Op.push_const ∨ op = Op.find_const) := by decide

theorem ivarOps_not_unwindops : ∀ op ∈ ivarLiteralOps, ¬ (op = Op.setup_unwind ∨ op = Op.unwind) := by decide

theorem passB_spec {cc : CompiledCode} {nil_id : Nat} {s s2 : Pass2State} {ip : Nat} {op : Op}
    (h : passB cc nil_id s ip op = Except.ok s2) :
    s2.stream.length = s.stream.length ∧
    (∀ k, k ≤ ip ∨ ip + instWidth op ≤ k → s2.stream[k]? = s.stream[k]?) ∧
    s2.references = s.references ++ (if op ∈ refRecordOps then [ip + 1] else []) ∧
    s2.calls_count = s.calls_count + (if op ∈ sendOps then 1 else 0) ∧
    s2.constants_count = s.constants_count +
      (if op = Op.push_const ∨ op = Op.find_const then 1 else 0) ∧
    s2.unwind_count = s.unwind_count +
      (if op = Op.setup_unwind ∨ op = Op.unwind then 1 else 0) ∧
    (∃ t, s2.call_sites = s.call_sites ++ t) := by
  unfold passB at h
  by_cases hc : op = Op.push_int
  case pos =>
    rw [if_pos hc] at h
    subst hc
    split at h
    next e he => exact absurd h (by simp)
    next n hn =>
      cases h
      refine ⟨by simp, ?_, ?_, ?_, ?_, ?_, ⟨[], by simp⟩⟩
      · intro k hk
        have hw : instWidth Op.push_int = 2 := by decide
        exact List.getElem?_set_ne (by rcases hk with hk | hk <;> omega : ip + 1 ≠ k)
      · rw [if_neg (by decide : ¬ (Op.push_int ∈ refRecordOps))]
        simp
      · rw [if_neg (by decide : ¬ (Op.push_int ∈ sendOps))]
        simp
      · rw [if_neg (by decide : ¬ (Op.push_int = Op.push_const ∨ Op.push_int = Op.find_const))]
        simp
      · rw [if_neg (by decide : ¬ (Op.push_int = Op.setup_unwind ∨ Op.push_int = Op.unwind))]
        simp
  case neg =>
    rw [if_neg hc] at h
    have hc1 := hc
    clear hc
    by_cases hc : op = Op.push_tagged_nil
    case pos =>
      rw [if_pos hc] at h
      subst hc
      cases h
      refine ⟨by simp, ?_, ?_, ?_, ?_, ?_, ⟨[], by simp⟩⟩
      · intro k hk
        have hw : instWidth Op.push_tagged_nil = 2 := by decide
        exact List.getElem?_set_ne (by rcases hk with hk | hk <;> omega : ip + 1 ≠ k)
      · rw [if_neg (by decide : ¬ (Op.push_tagged_nil ∈ refRecordOps))]
        simp
      · rw [if_neg (by decide : ¬ (Op.push_tagged_nil ∈ sendOps))]
        simp
      · rw [if_neg (by decide : ¬ (Op.push_tagged_nil = Op.push_const ∨ Op.push_tagged_nil = Op.find_const))]
        simp
      · rw [if_neg (by decide : ¬ (Op.push_tagged_nil = Op.setup_unwind ∨ Op.push_tagged_nil = Op.unwind))]
        simp
    case neg =>
      rw [if_neg hc] at h
      have hc2 := hc
      clear hc
      by_cases hc : op = Op.create_block
      case pos =>
        rw [if_pos hc] at h
        subst hc
        split at h
        next e he => exact absurd h (by simp)
        next idx hidx =>
          split at h
          next e he => exact absurd h (by simp)
          next v hv =>
            split at h
            next c =>
              cases h
              refine ⟨by simp, ?_, ?_, ?_, ?_, ?_, ⟨[], by simp⟩⟩
              · intro k hk
                have hw : instWidth Op.create_block = 2 := by decide
                exact List.getElem?_set_ne (by rcases hk with hk | hk <;> omega : ip + 1 ≠ k)
              · rw [if_pos (by decide : Op.create_block ∈ refRecordOps)]
              · rw [if_neg (by decide : ¬ (Op.create_block ∈ sendOps))]
                simp
              · rw [if_neg (by decide : ¬ (Op.create_block = Op.push_const ∨ Op.create_block = Op.find_const))]
                simp
              · rw [if_neg (by decide : ¬ (Op.create_block = Op.setup_unwind ∨ Op.create_block = Op.unwind))]
                simp
            next t =>
              cases h
              refine ⟨by simp, ?_, ?_, ?_, ?_, ?_, ⟨[], by simp⟩⟩
              · intro k hk
                have hw : instWidth Op.create_block = 2 := by decide
                exact List.getElem?_set_ne (by rcases hk with hk | hk <;> omega : ip + 1 ≠ k)
              · rw [if_pos (by decide : Op.create_block ∈ refRecordOps)]
              · rw [if_neg (by decide : ¬ (Op.create_block ∈ sendOps))]
                simp
              · rw [if_neg (by decide : ¬ (Op.create_block = Op.push_const ∨ Op.create_block = Op.find_const))]
                simp
              · rw [if_neg (by decide : ¬ (Op.create_block = Op.setup_unwind ∨ Op.create_block = Op.unwind))]
                simp
            next hv2 hv3 => exact absurd h (by simp)
      case neg =>
        rw [if_neg hc] at h
        have hc3 := hc
        clear hc
        by_cases hc : op = Op.push_memo ∨ op = Op.push_literal
        case pos =>
          rw [if_pos hc] at h
          split at h
          next e he => exact absurd h (by simp)
          next idx hidx =>
            split at h
            next e he => exact absurd h (by simp)
            next v hv =>
              cases h
              have hw : 2 ≤ instWidth op := by rcases hc with rfl | rfl <;> decide
              have hm : op ∈ refRecordOps := by rcases hc with rfl | rfl <;> decide
              have hm2 : ¬ op ∈ sendOps := by rcases hc with rfl | rfl <;> decide
              have hm3 : ¬ (op = Op.push_const ∨ op = Op.find_const) := by
                rcases hc with rfl | rfl <;> decide
              have hm4 : ¬ (op = Op.setup_unwind ∨ op = Op.unwind) := by
                rcases hc with rfl | rfl <;> decide
              refine ⟨by simp, ?_, ?_, ?_, ?_, ?_, ⟨[], by simp⟩⟩
              · intro k hk
                exact List.getElem?_set_ne (by rcases hk with hk | hk <;> omega : ip + 1 ≠ k)
              · rw [if_pos hm]
              · rw [if_neg hm2]
                simp
              · rw [if_neg hm3]
                simp
              · rw [if_neg hm4]
                simp
        case neg =>
          rw [if_neg hc] at h
          have hc4 := hc
          clear hc
          by_cases hc : op ∈ ivarLiteralOps
          case pos =>
            rw [if_pos hc] at h
            split at h
            next e he => exact absurd h (by simp)
            next idx hidx =>
              split at h
              next e he => exact absurd h (by simp)
              next v hv =>
                split at h
                next t =>
                  cases h
                  have hw : instWidth op = 2 := ivarOps_width op hc
                  refine ⟨by simp, ?_, ?_, ?_, ?_, ?_, ⟨[], by simp⟩⟩
                  · intro k hk
                    exact List.getElem?_set_ne (by rcases hk with hk | hk <;> omega : ip + 1 ≠ k)
                  · rw [if_neg (ivarOps_not_refRecord op hc)]
                    simp
                  · rw [if_neg (ivarOps_not_send op hc)]
                    simp
                  · rw [if_neg (ivarOps_not_const op hc)]
                    simp
                  · rw [if_neg (ivarOps_not_unwindops op hc)]
                    simp
                next hv2 => exact absurd h (by simp)
          case neg =>
            rw [if_neg hc] at h
            have hc5 := hc
            clear hc
            by_cases hc : op = Op.invoke_primitive
            case pos =>
              rw [if_pos hc] at h
              subst hc
              split at h
              next e he => exact absurd h (by simp)
              next idx hidx =>
                split at h
                next e he => exact absurd h (by simp)
                next v hv =>
                  split at h
                  next t =>
                    cases h
                    refine ⟨by simp, ?_, ?_, ?_, ?_, ?_, ⟨[], by simp⟩⟩
                    · intro k hk
                      have hw : instWidth Op.invoke_primitive = 3 := by decide
                      exact List.getElem?_set_ne (by rcases hk with hk | hk <;> omega : ip + 1 ≠ k)
                    · rw [if_neg (by decide : ¬ (Op.invoke_primitive ∈ refRecordOps))]
                      simp
                    · rw [if_neg (by decide : ¬ (Op.invoke_primitive ∈ sendOps))]
                      simp
                    · rw [if_neg (by decide : ¬ (Op.invoke_primitive = Op.push_const ∨ Op.invoke_primitive = Op.find_const))]
                      simp
                    · rw [if_neg (by decide : ¬ (Op.invoke_primitive = Op.setup_unwind ∨ Op.invoke_primitive = Op.unwind))]
                      simp
                  next hv2 => exact absurd h (by simp)
            case neg =>
              rw [if_neg hc] at h
              have hc6 := hc
              clear hc
              by_cases hc : op = Op.allow_private
              case pos =>
                rw [if_pos hc] at h
                subst hc
                cases h
                refine ⟨rfl, fun k hk => rfl, ?_, ?_, ?_, ?_, ⟨[], by simp⟩⟩
                · rw [if_neg (by decide : ¬ (Op.allow_private ∈ refRecordOps))]
                  simp
                · rw [if_neg (by decide : ¬ (Op.allow_private ∈ sendOps))]
                  simp
                · rw [if_neg (by decide : ¬ (Op.allow_private = Op.push_const ∨ Op.allow_private = Op.find_const))]
                  simp
                · rw [if_neg (by decide : ¬ (Op.allow_private = Op.setup_unwind ∨ Op.allow_private = Op.unwind))]
                  simp
              case neg =>
                rw [if_neg hc] at h
                have hc7 := hc
                clear hc
                by_cases hc : op ∈ sendOps
                case pos =>
                  rw [if_pos hc] at h
                  split at h
                  next e he => exact absurd h (by simp)
                  next idx hidx =>
                    split at h
                    next e he => exact absurd h (by simp)
                    next v hv =>
                      cases h
                      have hw : 2 ≤ instWidth op := width_sendOps op hc
                      refine ⟨by simp, ?_, ?_, ?_, ?_, ?_, ⟨_, rfl⟩⟩
                      · intro k hk
                        exact List.getElem?_set_ne (by rcases hk with hk | hk <;> omega : ip + 1 ≠ k)
                      · rw [if_pos (sendOps_mem_refRecordOps op hc)]
                      · rw [if_pos hc]
                      · rw [if_neg (sendOps_not_const op hc)]
                        simp
                      · rw [if_neg (sendOps_not_unwind op hc)]
                        simp
                case neg =>
                  rw [if_neg hc] at h
                  have hc8 := hc
                  clear hc
                  by_cases hc : op = Op.push_const ∨ op = Op.find_const
                  case pos =>
                    rw [if_pos hc] at h
                    split at h
                    next e he => exact absurd h (by simp)
                    next idx hidx =>
                      split at h
                      next e he => exact absurd h (by simp)
                      next v hv =>
                        split at h
                        next t =>
                          cases h
                          have hw : 2 ≤ instWidth op := by rcases hc with rfl | rfl <;> decide
                          have hm : op ∈ refRecordOps := by rcases hc with rfl | rfl <;> decide
                          have hm2 : ¬ op ∈ sendOps := by rcases hc with rfl | rfl <;> decide
                          have hm4 : ¬ (op = Op.setup_unwind ∨ op = Op.unwind) := by
                            rcases hc with rfl | rfl <;> decide
                          refine ⟨by simp, ?_, ?_, ?_, ?_, ?_, ⟨[], by simp⟩⟩
                          · intro k hk
                            exact List.getElem?_set_ne (by rcases hk with hk | hk <;> omega : ip + 1 ≠ k)
                          · rw [if_pos hm]
                          · rw [if_neg hm2]
                            simp
                          · rw [if_pos hc]
                          · rw [if_neg hm4]
                            simp
                        next hv2 => exact absurd h (by simp)
                  case neg =>
                    rw [if_neg hc] at h
                    have hc9 := hc
                    clear hc
                    by_cases hc : op = Op.setup_unwind
                    case pos =>
                      rw [if_pos hc] at h
                      subst hc
                      split at h
                      next e he => exact absurd h (by simp)
                      next hip2 hhip =>
                        split at h
                        next e he => exact absurd h (by simp)
                        next ut hut =>
                          cases h
                          refine ⟨by simp, ?_, ?_, ?_, ?_, ?_, ⟨[], by simp⟩⟩
                          · intro k hk
                            have hw : instWidth Op.setup_unwind = 3 := by decide
                            exact List.getElem?_set_ne (by rcases hk with hk | hk <;> omega : ip + 1 ≠ k)
                          · rw [if_pos (by decide : Op.setup_unwind ∈ refRecordOps)]
                          · rw [if_neg (by decide : ¬ (Op.setup_unwind ∈ sendOps))]
                            simp
                          · rw [if_neg (by decide : ¬ (Op.setup_unwind = Op.push_const ∨ Op.setup_unwind = Op.find_const))]
                            simp
                          · rw [if_pos (by decide : Op.setup_unwind = Op.setup_unwind ∨ Op.setup_unwind = Op.unwind)]
                    case neg =>
                      rw [if_neg hc] at h
                      have hc10 := hc
                      clear hc
                      by_cases hc : op = Op.unwind
                      case pos =>
                        rw [if_pos hc] at h
                        subst hc
                        cases h
                        refine ⟨by simp, ?_, ?_, ?_, ?_, ?_, ⟨[], by simp⟩⟩
                        · intro k hk
                          have hw : instWidth Op.unwind = 2 := by decide
                          exact List.getElem?_set_ne (by rcases hk with hk | hk <;> omega : ip + 1 ≠ k)
                        · rw [if_pos (by decide : Op.unwind ∈ refRecordOps)]
                        · rw [if_neg (by decide : ¬ (Op.unwind ∈ sendOps))]
                          simp
                        · rw [if_neg (by decide : ¬ (Op.unwind = Op.push_const ∨ Op.unwind = Op.find_const))]
                          simp
                        · rw [if_pos (by decide : Op.unwind = Op.setup_unwind ∨ Op.unwind = Op.unwind)]
                      case neg =>
                        rw [if_neg hc] at h
                        have hc11 := hc
                        clear hc
                        by_cases hc : op = Op.m_counter
                        case pos =>
                          rw [if_pos hc] at h
                          subst hc
                          cases h
                          refine ⟨by simp, ?_, ?_, ?_, ?_, ?_, ⟨[], by simp⟩⟩
                          · intro k hk
                            have hw : instWidth Op.m_counter = 2 := by decide
                            exact List.getElem?_set_ne (by rcases hk with hk | hk <;> omega : ip + 1 ≠ k)
                          · rw [if_neg (by decide : ¬ (Op.m_counter ∈ refRecordOps))]
                            simp
                          · rw [if_neg (by decide : ¬ (Op.m_counter ∈ sendOps))]
                            simp
                          · rw [if_neg (by decide : ¬ (Op.m_counter = Op.push_const ∨ Op.m_counter = Op.find_const))]
                            simp
                          · rw [if_neg (by decide : ¬ (Op.m_counter = Op.setup_unwind ∨ Op.m_counter = Op.unwind))]
                            simp
                        case neg =>
                          rw [if_neg hc] at h
                          have hc12 := hc
                          clear hc
                          cases h
                          refine ⟨rfl, fun k hk => rfl, ?_, ?_, ?_, ?_, ⟨[], by simp⟩⟩
                          · rw [if_neg ?_]
                            · simp
                            · intro hmem
                              simp only [refRecordOps, List.mem_cons, List.not_mem_nil, or_false] at hmem
                              rcases hmem with rfl | rfl | rfl | rfl | rfl | rfl | rfl | rfl | rfl | rfl | rfl | rfl | rfl | rfl | rfl | rfl | rfl | rfl | rfl
                              all_goals first
                              | exact hc8 (by decide)
                              | exact hc4 (Or.inl rfl)
                              | exact hc4 (Or.inr rfl)
                              | exact hc3 rfl
                              | exact hc9 (Or.inl rfl)
                              | exact hc9 (Or.inr rfl)
                              | exact hc10 rfl
                              | exact hc11 rfl
                          · rw [if_neg hc8]
                            simp
                          · rw [if_neg hc9]
                            simp
                          · rw [if_neg ?_]
                            · rfl
                            · rintro (rfl | rfl)
                              · exact hc10 rfl
                              · exact hc11 rfl

theorem pass2Step_spec {cc : CompiledCode} {nil_id : Nat} {s s2 : Pass2State} {ip : Nat} {op : Op}
    (h : pass2Step cc nil_id s (ip, op) = Except.ok s2) :
    s2.stream.length = s.stream.length ∧
    (∀ k, k ≤ ip ∨ ip + instWidth op ≤ k → s2.stream[k]? = s.stream[k]?) ∧
    s2.references = s.references ++ refsOfHeader (ip, op) ∧
    s2.calls_count = s.calls_count + (if op ∈ sendOps then 1 else 0) ∧
    s2.constants_count = s.constants_count +
      (if op = Op.push_const ∨ op = Op.find_const then 1 else 0) ∧
    s2.unwind_count = s.unwind_count +
      (if op = Op.setup_unwind ∨ op = Op.unwind then 1 else 0) ∧
    (∃ t, s2.call_sites = s.call_sites ++ t) := by
  simp only [pass2Step] at h
  split at h
  next e he => exact absurd h (by simp)
  next s1 hA =>
    obtain ⟨al, afr, arefs, ac, acn, au, acs, -, -, -, -, -⟩ := passA_spec hA
    obtain ⟨bl, bfr, brefs, bc, bcn, bu, bcs⟩ := passB_spec h
    refine ⟨by omega, ?_, ?_, by omega, by omega, by omega, ?_⟩
    · intro k hk
      rw [bfr k hk, afr k hk]
    · rw [brefs, arefs]
      simp only [refsOfHeader]
      by_cases hr : op = Op.r_load_literal
      · subst hr
        rw [if_pos rfl, if_pos rfl, if_neg (by decide : ¬ (Op.r_load_literal ∈ refRecordOps))]
        simp
      · rw [if_neg hr, if_neg hr]
        simp
    · obtain ⟨t1, ht1⟩ := bcs
      exact ⟨t1, by rw [ht1, acs]⟩

theorem pass2_fold_spec {cc : CompiledCode} {nil_id : Nat} {hs : List (Nat × Op)}
    {s s2 : Pass2State}
    (h : foldE (pass2Step cc nil_id) s hs = Except.ok s2) :
    s2.stream.length = s.stream.length ∧
    s2.references = s.references ++ refsOf hs ∧
    s2.calls_count = s.calls_count + countOps sendOps hs ∧
    s2.constants_count = s.constants_count + countOps [Op.push_const, Op.find_const] hs ∧
    s2.unwind_count = s.unwind_count + countOps [Op.setup_unwind, Op.unwind] hs ∧
    (∃ t, s2.call_sites = s.call_sites ++ t) := by
  induction hs generalizing s with
  | nil =>
    cases h
    simp [refsOf, countOps]
  | cons p t ih =>
    simp only [foldE] at h
    split at h
    next e he => exact absurd h (by simp)
    next s1 hstep =>
      obtain ⟨ip, op⟩ := p
      obtain ⟨hl1, -, hrefs1, hc1, hcn1, hu1, hcs1⟩ := pass2Step_spec hstep
      obtain ⟨hl2, hrefs2, hc2, hcn2, hu2, hcs2⟩ := ih h
      refine ⟨by omega, ?_, ?_, ?_, ?_, ?_⟩
      · rw [hrefs2, hrefs1]
        simp [refsOf]
      · rw [hc2, hc1]
        simp only [countOps]
        omega
      · rw [hcn2, hcn1]
        simp only [countOps]
        have : (if op ∈ [Op.push_const, Op.find_const] then 1 else 0) =
            (if op = Op.push_const ∨ op = Op.find_const then 1 else 0) := by
          simp [List.mem_cons]
        omega
      · rw [hu2, hu1]
        simp only [countOps]
        have : (if op ∈ [Op.setup_unwind, Op.unwind] then 1 else 0) =
            (if op = Op.setup_unwind ∨ op = Op.unwind then 1 else 0) := by
          simp [List.mem_cons]
        omega
      · obtain ⟨t1, ht1⟩ := hcs1
        obtain ⟨t2, ht2⟩ := hcs2
        exact ⟨t1 ++ t2, by rw [ht2, ht1, List.append_assoc]⟩

theorem pass2_fold_frame_lo {cc : CompiledCode} {nil_id : Nat} {hs : List (Nat × Op)}
    {s s2 : Pass2State} {q k : Nat}
    (hq : ∀ p ∈ hs, q ≤ p.1) (hk : k ≤ q)
    (h : foldE (pass2Step cc nil_id) s hs = Except.ok s2) :
    s2.stream[k]? = s.stream[k]? := by
  induction hs generalizing s with
  | nil => cases h; rfl
  | cons p t ih =>
    simp only [foldE] at h
    split at h
    next e he => exact absurd h (by simp)
    next s1 hstep =>
      obtain ⟨ip, op⟩ := p
      obtain ⟨-, hfr, -, -, -, -, -⟩ := pass2Step_spec hstep
      have hq1 : q ≤ ip := hq (ip, op) (List.mem_cons_self _ t)
      rw [ih (fun r hr => hq r (List.mem_cons_of_mem _ hr)) h]
      exact hfr k (Or.inl (by omega))

theorem pass2_fold_frame_hi {cc : CompiledCode} {nil_id : Nat} {hs : List (Nat × Op)}
    {s s2 : Pass2State} {q k : Nat}
    (hq : ∀ p ∈ hs, p.1 + instWidth p.2 ≤ q) (hk : q ≤ k)
    (h : foldE (pass2Step cc nil_id) s hs = Except.ok s2) :
    s2.stream[k]? = s.stream[k]? := by
  induction hs generalizing s with
  | nil => cases h; rfl
  | cons p t ih =>
    simp only [foldE] at h
    split at h
    next e he => exact absurd h (by simp)
    next s1 hstep =>
      obtain ⟨ip, op⟩ := p
      obtain ⟨-, hfr, -, -, -, -, -⟩ := pass2Step_spec hstep
      have hq1 : ip + instWidth op ≤ q := hq (ip, op) (List.mem_cons_self _ t)
      rw [ih (fun r hr => hq r (List.mem_cons_of_mem _ hr)) h]
      exact hfr k (Or.inr (by omega))

theorem refsOf_append (l1 l2 : List (Nat × Op)) :
    refsOf (l1 ++ l2) = refsOf l1 ++ refsOf l2 := by
  induction l1 with
  | nil => simp [refsOf]
  | cons p t ih => simp [refsOf, ih]

theorem prepare_ok_decompose {cc : CompiledCode} {nil_id : Nat} {mc : MachineCode}
    (h : prepare cc nil_id = Except.ok mc) :
    ∃ hs s1 s2,
      headersOf cc = Except.ok hs ∧
      foldE (pass1Step cc.opcodes) (pass1Init cc) hs = Except.ok s1 ∧
      foldE (pass2Step cc nil_id) (pass2Init s1.stream) hs = Except.ok s2 ∧
      mc.stream = s2.stream ∧
      mc.references = s2.references ∧
      mc.references_count = s1.rcount ∧
      mc.call_sites = s2.call_sites ∧
      mc.constant_caches = s2.constant_caches ∧
      mc.unwind_sites = s2.unwind_sites ∧
      mc.call_site_count = s2.calls_count ∧
      mc.constant_cache_count = s2.constants_count ∧
      mc.unwind_site_count = s2.unwind_count ∧
      mc.serial = cc.serial ∧
      mc.stack_size = cc.stack_size := by
  unfold prepare at h
  split at h
  next e he => exact absurd h (by simp)
  next hs hscan =>
    split at h
    next e he => exact absurd h (by simp)
    next s1 h1 =>
      split at h
      next e he => exact absurd h (by simp)
      next s2 h2 =>
        cases h
        exact ⟨hs, s1, s2, hscan, h1, h2, rfl, rfl, rfl, rfl, rfl, rfl, rfl, rfl, rfl, rfl, rfl⟩

theorem headersOf_mem {cc : CompiledCode} {hs : List (Nat × Op)}
    (h : headersOf cc = Except.ok hs) : ∀ p ∈ hs, p.1 < cc.opcodes.length :=
  fun p hp => (scanHeaders_mem cc.opcodes cc.opcodes.length cc.opcodes.length 0 hs h p hp).2

theorem headersOf_chain {cc : CompiledCode} {hs : List (Nat × Op)}
    (h : headersOf cc = Except.ok hs) :
    List.Pairwise (fun a b : Nat × Op => a.1 + instWidth a.2 ≤ b.1) hs :=
  scanHeaders_chain cc.opcodes cc.opcodes.length cc.opcodes.length 0 hs h

theorem pass1Init_length (cc : CompiledCode) :
    (pass1Init cc).stream.length = cc.opcodes.length := by
  simp [pass1Init]

theorem prepare_at_header {cc : CompiledCode} {nil_id : Nat} {mc : MachineCode}
    {hs pre post : List (Nat × Op)} {ip : Nat} {op : Op}
    (hprep : prepare cc nil_id = Except.ok mc)
    (hscan : headersOf cc = Except.ok hs)
    (hsplit : hs = pre ++ (ip, op) :: post) :
    ∃ s1 spre sstep,
      foldE (pass1Step cc.opcodes) (pass1Init cc) hs = Except.ok s1 ∧
      foldE (pass2Step cc nil_id) (pass2Init s1.stream) pre = Except.ok spre ∧
      pass2Step cc nil_id spre (ip, op) = Except.ok sstep ∧
      (∀ j, 1 ≤ j → j < instWidth op →
        ∃ v, cc.opcodes[ip + j]? = some v ∧ spre.stream[ip + j]? = some (Word.int v)) ∧
      (∀ j, 1 ≤ j → j < instWidth op → mc.stream[ip + j]? = sstep.stream[ip + j]?) ∧
      mc.references = spre.references ++ refsOfHeader (ip, op) ++ refsOf post ∧
      spre.references = refsOf pre ∧
      (∀ x ∈ sstep.call_sites, x ∈ mc.call_sites) ∧
      spre.stream.length = cc.opcodes.length ∧
      ip < cc.opcodes.length := by
  obtain ⟨hs2, s1, s2, hscan2, h1, h2, hstr, hrefs, hrc, hcs, -, -, -, -, -, -, -⟩ :=
    prepare_ok_decompose hprep
  rw [hscan] at hscan2
  cases hscan2
  subst hsplit
  have hmem : ∀ p ∈ pre ++ (ip, op) :: post, p.1 < cc.opcodes.length := headersOf_mem hscan
  have hchain := headersOf_chain hscan
  have hip : ip < cc.opcodes.length := hmem (ip, op) (by simp)
  obtain ⟨hchain_pre, hchain_rest, hrel⟩ := List.pairwise_append.mp hchain
  obtain ⟨hrel_post, hchain_post⟩ := List.pairwise_cons.mp hchain_rest
  -- pass 1 decomposition along the split
  obtain ⟨sa, h1pre, h1rest⟩ := foldE_ok_of_append h1
  have h1rest2 : foldE (pass1Step cc.opcodes) sa ([(ip, op)] ++ post) = Except.ok s1 := by
    simpa using h1rest
  obtain ⟨sb, h1step0, h1post⟩ := foldE_ok_of_append h1rest2
  have h1step : pass1Step cc.opcodes sa (ip, op) = Except.ok sb := by
    simp only [foldE] at h1step0
    split at h1step0
    next e he => exact absurd h1step0 (by simp)
    next sb2 hsb2 =>
      cases h1step0
      exact hsb2
  have hmem_pre : ∀ p ∈ pre, p.1 < cc.opcodes.length := by
    intro p hp
    exact hmem p (List.mem_append_left _ hp)
  obtain ⟨hlen_a, -⟩ := pass1_fold_spec (pass1Init_length cc) hmem_pre h1pre
  have hlen_a2 : sa.stream.length = cc.opcodes.length := by
    rw [hlen_a, pass1Init_length]
  obtain ⟨hlen_b, -, -, -, h1vals⟩ := pass1Step_spec hlen_a2 hip h1step
  -- values survive the pass-1 post fold
  have hmem_post : ∀ p ∈ post, p.1 < cc.opcodes.length := by
    intro p hp
    exact hmem p (List.mem_append_right _ (List.mem_cons_of_mem _ hp))
  have hpost_lo : ∀ p ∈ post, ip + instWidth op ≤ p.1 := fun p hp => hrel_post p hp
  have h1final : ∀ j, 1 ≤ j → j < instWidth op →
      ∃ v, cc.opcodes[ip + j]? = some v ∧ s1.stream[ip + j]? = some (Word.int v) := by
    intro j hj hjw
    obtain ⟨v, hv, hsb⟩ := h1vals j hj hjw
    refine ⟨v, hv, ?_⟩
    rw [pass1_fold_frame_lo (by omega : sb.stream.length = cc.opcodes.length)
          hmem_post hpost_lo (by omega : ip + j < ip + instWidth op) h1post]
    exact hsb
  have hlen_s1 : s1.stream.length = cc.opcodes.length := by
    obtain ⟨hl, -⟩ := pass1_fold_spec (pass1Init_length cc) hmem h1
    rw [hl, pass1Init_length]
  -- pass 2 decomposition along the split
  obtain ⟨spre, h2pre, h2rest⟩ := foldE_ok_of_append h2
  have h2rest2 : foldE (pass2Step cc nil_id) spre ([(ip, op)] ++ post) = Except.ok s2 := by
    simpa using h2rest
  obtain ⟨sstep, h2step0, h2post⟩ := foldE_ok_of_append h2rest2
  have h2step : pass2Step cc nil_id spre (ip, op) = Except.ok sstep := by
    simp only [foldE] at h2step0
    split at h2step0
    next e he => exact absurd h2step0 (by simp)
    next sb2 hsb2 =>
      cases h2step0
      exact hsb2
  have hpre_hi : ∀ p ∈ pre, p.1 + instWidth p.2 ≤ ip := by
    intro p hp
    exact hrel p hp (ip, op) (List.mem_cons_self _ post)
  obtain ⟨hlen2pre, hrefs_pre, -, -, -, -⟩ := pass2_fold_spec h2pre
  have hlen_spre : spre.stream.length = cc.opcodes.length := by
    rw [hlen2pre]
    simpa [pass2Init] using hlen_s1
  refine ⟨s1, spre, sstep, h1, h2pre, h2step, ?_, ?_, ?_, ?_, ?_, hlen_spre, hip⟩
  · intro j hj hjw
    obtain ⟨v, hv, hs1v⟩ := h1final j hj hjw
    refine ⟨v, hv, ?_⟩
    rw [pass2_fold_frame_hi hpre_hi (by omega : ip ≤ ip + j) h2pre]
    simpa [pass2Init] using hs1v
  · intro j hj hjw
    rw [hstr]
    exact pass2_fold_frame_lo hpost_lo (by omega : ip + j ≤ ip + instWidth op) h2post
  · rw [hrefs]
    obtain ⟨-, hrefs_post, -, -, -, -⟩ := pass2_fold_spec h2post
    obtain ⟨-, -, hrefs_step, -, -, -, -⟩ := pass2Step_spec h2step
    rw [hrefs_post, hrefs_step]
  · rw [hrefs_pre]
    simp [pass2Init]
  · intro x hx
    rw [hcs]
    obtain ⟨-, -, -, -, -, ⟨t2, ht2⟩⟩ := pass2_fold_spec h2post
    rw [ht2]
    exact List.mem_append_left _ hx

theorem regBias1_passA : ∀ op ∈ regBias1, op ∈ passAHandledOps := by decide

theorem regBias2_passA : ∀ op ∈ regBias2, op ∈ passAHandledOps := by decide

theorem regBias3_passA : ∀ op ∈ regBias3, op ∈ passAHandledOps := by decide

theorem ivarOps_passB : ∀ op ∈ ivarLiteralOps, op ∈ passBHandledOps := by decide

theorem sendOps_passB : ∀ op ∈ sendOps, op ∈ passBHandledOps := by decide

theorem regBias1_not_passB : ∀ op ∈ regBias1, op ∉ passBHandledOps := by decide

theorem regBias2_not_passB : ∀ op ∈ regBias2, op ∉ passBHandledOps := by decide

theorem regBias3_not_passB : ∀ op ∈ regBias3, op ∉ passBHandledOps := by decide

theorem passA_not_handled {cc : CompiledCode} {nil_id : Nat} {s : Pass2State} {ip : Nat} {op : Op}
    (hno : op ∉ passAHandledOps) :
    passA cc nil_id s ip op = Except.ok s := by
  unfold passA
  rw [if_neg (by rintro rfl; exact hno (by decide)),
      if_neg (fun hc => hno (regBias1_passA op hc)),
      if_neg (by rintro rfl; exact hno (by decide)),
      if_neg (by rintro rfl; exact hno (by decide)),
      if_neg (fun hc => hno (regBias2_passA op hc)),
      if_neg (fun hc => hno (regBias3_passA op hc))]

theorem passB_not_handled {cc : CompiledCode} {nil_id : Nat} {s : Pass2State} {ip : Nat} {op : Op}
    (hno : op ∉ passBHandledOps) :
    passB cc nil_id s ip op = Except.ok s := by
  unfold passB
  rw [if_neg (by rintro rfl; exact hno (by decide)),
      if_neg (by rintro rfl; exact hno (by decide)),
      if_neg (by rintro rfl; exact hno (by decide)),
      if_neg (by rintro (rfl | rfl) <;> exact hno (by decide)),
      if_neg (fun hc => hno (ivarOps_passB op hc)),
      if_neg (by rintro rfl; exact hno (by decide)),
      if_neg (by rintro rfl; exact hno (by decide)),
      if_neg (fun hc => hno (sendOps_passB op hc)),
      if_neg (by rintro (rfl | rfl) <;> exact hno (by decide)),
      if_neg (by rintro rfl; exact hno (by decide)),
      if_neg (by rintro rfl; exact hno (by decide)),
      if_neg (by rintro rfl; exact hno (by decide))]

theorem passB_frame1 {cc : CompiledCode} {nil_id : Nat} {s s2 : Pass2State} {ip : Nat} {op : Op}
    (h : passB cc nil_id s ip op = Except.ok s2) {k : Nat} (hk : k ≠ ip + 1) :
    s2.stream[k]? = s.stream[k]? := by
  unfold passB at h
  by_cases hc : op = Op.push_int
  case pos =>
    rw [if_pos hc] at h
    subst hc
    split at h
    next e he => exact absurd h (by simp)
    next n hn =>
      cases h
      exact List.getElem?_set_ne (Ne.symm hk)
  case neg =>
    rw [if_neg hc] at h
    clear hc
    by_cases hc : op = Op.push_tagged_nil
    case pos =>
      rw [if_pos hc] at h
      subst hc
      cases h
      exact List.getElem?_set_ne (Ne.symm hk)
    case neg =>
      rw [if_neg hc] at h
      clear hc
      by_cases hc : op = Op.create_block
      case pos =>
        rw [if_pos hc] at h
        subst hc
        split at h
        next e he => exact absurd h (by simp)
        next idx hidx =>
          split at h
          next e he => exact absurd h (by simp)
          next v hv =>
            split at h
            next c =>
              cases h
              exact List.getElem?_set_ne (Ne.symm hk)
            next t =>
              cases h
              exact List.getElem?_set_ne (Ne.symm hk)
            next hv2 hv3 => exact absurd h (by simp)
      case neg =>
        rw [if_neg hc] at h
        clear hc
        by_cases hc : op = Op.push_memo ∨ op = Op.push_literal
        case pos =>
          rw [if_pos hc] at h
          split at h
          next e he => exact absurd h (by simp)
          next idx hidx =>
            split at h
            next e he => exact absurd h (by simp)
            next v hv =>
              cases h
              exact List.getElem?_set_ne (Ne.symm hk)
        case neg =>
          rw [if_neg hc] at h
          clear hc
          by_cases hc : op ∈ ivarLiteralOps
          case pos =>
            rw [if_pos hc] at h
            split at h
            next e he => exact absurd h (by simp)
            next idx hidx =>
              split at h
              next e he => exact absurd h (by simp)
              next v hv =>
                split at h
                next t =>
                  cases h
                  exact List.getElem?_set_ne (Ne.symm hk)
                next hv2 => exact absurd h (by simp)
          case neg =>
            rw [if_neg hc] at h
            clear hc
            by_cases hc : op = Op.invoke_primitive
            case pos =>
              rw [if_pos hc] at h
              subst hc
              split at h
              next e he => exact absurd h (by simp)
              next idx hidx =>
                split at h
                next e he => exact absurd h (by simp)
                next v hv =>
                  split at h
                  next t =>
                    cases h
                    exact List.getElem?_set_ne (Ne.symm hk)
                  next hv2 => exact absurd h (by simp)
            case neg =>
              rw [if_neg hc] at h
              clear hc
              by_cases hc : op = Op.allow_private
              case pos =>
                rw [if_pos hc] at h
                subst hc
                cases h
                rfl
              case neg =>
                rw [if_neg hc] at h
                clear hc
                by_cases hc : op ∈ sendOps
                case pos =>
                  rw [if_pos hc] at h
                  split at h
                  next e he => exact absurd h (by simp)
                  next idx hidx =>
                    split at h
                    next e he => exact absurd h (by simp)
                    next v hv =>
                      cases h
                      exact List.getElem?_set_ne (Ne.symm hk)
                case neg =>
                  rw [if_neg hc] at h
                  clear hc
                  by_cases hc : op = Op.push_const ∨ op = Op.find_const
                  case pos =>
                    rw [if_pos hc] at h
                    split at h
                    next e he => exact absurd h (by simp)
                    next idx hidx =>
                      split at h
                      next e he => exact absurd h (by simp)
                      next v hv =>
                        split at h
                        next t =>
                          cases h
                          exact List.getElem?_set_ne (Ne.symm hk)
                        next hv2 => exact absurd h (by simp)
                  case neg =>
                    rw [if_neg hc] at h
                    clear hc
                    by_cases hc : op = Op.setup_unwind
                    case pos =>
                      rw [if_pos hc] at h
                      subst hc
                      split at h
                      next e he => exact absurd h (by simp)
                      next hip2 hhip =>
                        split at h
                        next e he => exact absurd h (by simp)
                        next ut hut =>
                          cases h
                          exact List.getElem?_set_ne (Ne.symm hk)
                    case neg =>
                      rw [if_neg hc] at h
                      clear hc
                      by_cases hc : op = Op.unwind
                      case pos =>
                        rw [if_pos hc] at h
                        subst hc
                        cases h
                        exact List.getElem?_set_ne (Ne.symm hk)
                      case neg =>
                        rw [if_neg hc] at h
                        clear hc
                        by_cases hc : op = Op.m_counter
                        case pos =>
                          rw [if_pos hc] at h
                          subst hc
                          cases h
                          exact List.getElem?_set_ne (Ne.symm hk)
                        case neg =>
                          rw [if_neg hc] at h
                          clear hc
                          cases h
                          rfl

theorem pass2Step_bias {cc : CompiledCode} {nil_id : Nat} {s s2 : Pass2State}
    {ip : Nat} {op : Op} {j v : Nat}
    (h : pass2Step cc nil_id s (ip, op) = Except.ok s2)
    (hj : j ∈ biasedOperands op)
    (hv : s.stream[ip + j]? = some (Word.int v)) :
    s2.stream[ip + j]? = some (Word.int (v + cc.stack_size)) := by
  simp only [pass2Step] at h
  split at h
  next e he => exact absurd h (by simp)
  next s1 hA =>
    unfold biasedOperands at hj
    by_cases hb1 : op = Op.b_if_serial
    case pos =>
      subst hb1
      rw [if_pos rfl] at hj
      simp only [List.mem_singleton] at hj
      subst hj
      unfold passA at hA
      rw [if_pos rfl] at hA
      cases hA
      rw [passB_frame1 h (by omega : ip + 2 ≠ ip + 1)]
      exact biasAt_val hv
    case neg =>
      rw [if_neg hb1] at hj
      by_cases hb2 : op ∈ regBias1
      case pos =>
        rw [if_pos hb2] at hj
        simp only [List.mem_singleton] at hj
        subst hj
        unfold passA at hA
        rw [if_neg hb1, if_pos hb2] at hA
        cases hA
        rw [passB_not_handled (regBias1_not_passB op hb2)] at h
        cases h
        exact biasAt_val hv
      case neg =>
        rw [if_neg hb2] at hj
        by_cases hb3 : op = Op.r_load_nil
        case pos =>
          subst hb3
          rw [if_pos rfl] at hj
          simp only [List.mem_singleton] at hj
          subst hj
          unfold passA at hA
          rw [if_neg hb1, if_neg hb2, if_pos rfl] at hA
          cases hA
          rw [passB_not_handled (by decide : Op.r_load_nil ∉ passBHandledOps)] at h
          cases h
          rw [List.getElem?_set_ne (by omega : ip + 2 ≠ ip + 1)]
          exact biasAt_val hv
        case neg =>
          rw [if_neg hb3] at hj
          by_cases hb4 : op = Op.r_load_literal
          case pos =>
            subst hb4
            rw [if_pos rfl] at hj
            simp only [List.mem_singleton] at hj
            subst hj
            unfold passA at hA
            rw [if_neg hb1, if_neg hb2, if_neg hb3, if_pos rfl] at hA
            split at hA
            next e he => exact absurd hA (by simp)
            next idx hidx =>
              split at hA
              next e he => exact absurd hA (by simp)
              next w hw =>
                cases hA
                rw [passB_not_handled (by decide : Op.r_load_literal ∉ passBHandledOps)] at h
                cases h
                refine biasAt_val ?_
                rw [List.getElem?_set_ne (by omega : ip + 2 ≠ ip + 1)]
                exact hv
          case neg =>
            rw [if_neg hb4] at hj
            by_cases hb5 : op ∈ regBias2
            case pos =>
              rw [if_pos hb5] at hj
              unfold passA at hA
              rw [if_neg hb1, if_neg hb2, if_neg hb3, if_neg hb4, if_pos hb5] at hA
              cases hA
              rw [passB_not_handled (regBias2_not_passB op hb5)] at h
              cases h
              simp only [List.mem_cons, List.not_mem_nil, or_false] at hj
              rcases hj with rfl | rfl
              · rw [biasAt_frame (by omega : ip + 2 ≠ ip + 1)]
                exact biasAt_val hv
              · refine biasAt_val ?_
                rw [biasAt_frame (by omega : ip + 1 ≠ ip + 2)]
                exact hv
            case neg =>
              rw [if_neg hb5] at hj
              by_cases hb6 : op ∈ regBias3
              case pos =>
                rw [if_pos hb6] at hj
                unfold passA at hA
                rw [if_neg hb1, if_neg hb2, if_neg hb3, if_neg hb4, if_neg hb5,
                    if_pos hb6] at hA
                cases hA
                rw [passB_not_handled (regBias3_not_passB op hb6)] at h
                cases h
                simp only [List.mem_cons, List.not_mem_nil, or_false] at hj
                rcases hj with rfl | rfl | rfl
                · rw [biasAt_frame (by omega : ip + 3 ≠ ip + 1),
                      biasAt_frame (by omega : ip + 2 ≠ ip + 1)]
                  exact biasAt_val hv
                · rw [biasAt_frame (by omega : ip + 3 ≠ ip + 2)]
                  refine biasAt_val ?_
                  rw [biasAt_frame (by omega : ip + 1 ≠ ip + 2)]
                  exact hv
                · refine biasAt_val ?_
                  rw [biasAt_frame (by omega : ip + 2 ≠ ip + 3),
                      biasAt_frame (by omega : ip + 1 ≠ ip + 3)]
                  exact hv
              case neg =>
                rw [if_neg hb6] at hj
                exact absurd hj (List.not_mem_nil j)

theorem biasedOperands_width :
    ∀ op : Op, ∀ j ∈ biasedOperands op, 1 ≤ j ∧ j < instWidth op := by decide

theorem refRecord_sub_refCount : ∀ op ∈ refRecordOps, op ∈ refCountOps := by decide

theorem refCount_split : ∀ op ∈ refCountOps, op = Op.r_load_literal ∨ op ∈ refRecordOps := by
  decide

theorem refsOfHeader_length (p : Nat × Op) : (refsOfHeader p).length = countRef1 p.2 := by
  obtain ⟨ip, op⟩ := p
  unfold refsOfHeader countRef1
  by_cases h1 : op = Op.r_load_literal
  · subst h1
    rw [if_pos rfl, if_neg (by decide : ¬ instWidth Op.r_load_literal = 1),
        if_pos (by decide : Op.r_load_literal ∈ refCountOps)]
    rfl
  · rw [if_neg h1]
    by_cases h2 : op ∈ refRecordOps
    · have hw := width_refRecordOps op h2
      rw [if_pos h2, if_neg (by omega : ¬ instWidth op = 1),
          if_pos (refRecord_sub_refCount op h2)]
      rfl
    · rw [if_neg h2]
      by_cases h3 : instWidth op = 1
      · rw [if_pos h3]
        rfl
      · rw [if_neg h3, if_neg ?_]
        · rfl
        · intro hc
          rcases refCount_split op hc with hc2 | hc2
          · exact h1 hc2
          · exact h2 hc2

theorem refsOf_length (hs : List (Nat × Op)) : (refsOf hs).length = sumRef1 hs := by
  induction hs with
  | nil => rfl
  | cons p t ih =>
    simp only [refsOf, sumRef1, List.length_append, ih, refsOfHeader_length p]

/-- C3: for the compiled code `[push_literal 0, ret]` with literals `["hello"]`
and `stack_size = 1`, after `prepare` the prepared stream word at index 1 is
the reference to the literal `"hello"` and the reference-slot array is `[1]`. -/
theorem push_literal_round_trip :
    (prepare ccPushLiteral 0).toOption.map
      (fun mc => (mc.stream[1]?, mc.references)) =
      some (some (Word.ref (Obj.str "hello")), [1]) := by
  decide

/-- C4: for every instruction that reads a register operand (an operand
position biased by the register-offset switch), the prepared operand word
after `prepare` equals the corresponding input operand word plus the compiled
code's declared `stack_size`. -/
theorem register_operand_biasing
    (cc : CompiledCode) (nil_id : Nat) (mc : MachineCode) (hs : List (Nat × Op))
    (ip : Nat) (op : Op) (j : Nat)
    (hprep : prepare cc nil_id = Except.ok mc)
    (hscan : headersOf cc = Except.ok hs)
    (hmem : (ip, op) ∈ hs)
    (hj : j ∈ biasedOperands op) :
    ∃ w, cc.opcodes[ip + j]? = some w ∧
      mc.stream[ip + j]? = some (Word.int (w + cc.stack_size)) := by
  obtain ⟨pre, post, hsplit⟩ := List.append_of_mem hmem
  obtain ⟨s1, spre, sstep, h1, hpre, hstep, hentry, hfinal, -, -, -, -, -⟩ :=
    prepare_at_header hprep hscan hsplit
  obtain ⟨hj1, hjw⟩ := biasedOperands_width op j hj
  obtain ⟨v, hv, hsv⟩ := hentry j hj1 hjw
  refine ⟨v, hv, ?_⟩
  rw [hfinal j hj1 hjw]
  exact pass2Step_bias hstep hj hsv

/-- Witness for C4, at the register-biasing scenario of the spec: the
compiled code `r_load_0 2` with `stack_size = 3` prepares to `stream[1] = 5`. -/
theorem register_operand_biasing_witness :
    ∃ mc, prepare ccRLoad0 0 = Except.ok mc ∧ mc.stream[1]? = some (Word.int 5) := by
  cases hmc : prepare ccRLoad0 0 with
  | error e =>
    have hok : (prepare ccRLoad0 0).toOption.isSome = true := by decide
    rw [hmc] at hok
    simp [Except.toOption] at hok
  | ok mc =>
    obtain ⟨w, hw, hst⟩ :=
      register_operand_biasing ccRLoad0 0 mc [(0, Op.r_load_0)] 0 Op.r_load_0 1
        hmc (by decide) (by decide) (by decide)
    have hval : ccRLoad0.opcodes[0 + 1]? = some 2 := by decide
    rw [hval] at hw
    cases hw
    refine ⟨mc, rfl, ?_⟩
    have : (0 : Nat) + 1 = 1 := rfl
    rw [this] at hst
    exact hst

/-- C6: after `prepare` returns, the declared site counts stored in the
machine code equal the number of send-variant, serial-check, `object_to_s`
and `b_if_serial` instructions, of `push_const` / `find_const` instructions,
and of `setup_unwind` / `unwind` instructions in the stream. -/
theorem declared_site_counts
    (cc : CompiledCode) (nil_id : Nat) (mc : MachineCode) (hs : List (Nat × Op))
    (hprep : prepare cc nil_id = Except.ok mc)
    (hscan : headersOf cc = Except.ok hs) :
    mc.call_site_count = countOps sendOps hs ∧
    mc.constant_cache_count = countOps [Op.push_const, Op.find_const] hs ∧
    mc.unwind_site_count = countOps [Op.setup_unwind, Op.unwind] hs := by
  obtain ⟨hs2, s1, s2, hscan2, h1, h2, -, -, -, -, -, -, hc, hcn, hu, -, -⟩ :=
    prepare_ok_decompose hprep
  rw [hscan] at hscan2
  cases hscan2
  obtain ⟨-, -, hfc, hfcn, hfu, -⟩ := pass2_fold_spec h2
  refine ⟨?_, ?_, ?_⟩
  · rw [hc, hfc]
    simp [pass2Init]
  · rw [hcn, hfcn]
    simp [pass2Init]
  · rw [hu, hfu]
    simp [pass2Init]

/-- Witness for C6, at a program with one constant lookup, one `setup_unwind`
and one `unwind`. -/
theorem declared_site_counts_witness :
    ∃ mc, prepare ccSites 0 = Except.ok mc ∧
      mc.call_site_count = 0 ∧ mc.constant_cache_count = 1 ∧ mc.unwind_site_count = 2 := by
  cases hmc : prepare ccSites 0 with
  | error e =>
    have hok : (prepare ccSites 0).toOption.isSome = true := by decide
    rw [hmc] at hok
    simp [Except.toOption] at hok
  | ok mc =>
    obtain ⟨hc, hcn, hu⟩ :=
      declared_site_counts ccSites 0 mc [(0, Op.push_const), (2, Op.setup_unwind), (5, Op.unwind)]
        hmc (by decide)
    refine ⟨mc, rfl, ?_, ?_, ?_⟩
    · rw [hc]
      decide
    · rw [hcn]
      decide
    · rw [hu]
      decide

/-- C9: the number of reference-slot entries written by pass 2 equals the
count allocated from pass 1, so every entry of the reference-slot array is
initialized and no write goes past its end. -/
theorem reference_slots_balanced
    (cc : CompiledCode) (nil_id : Nat) (mc : MachineCode)
    (hprep : prepare cc nil_id = Except.ok mc) :
    mc.references.length = mc.references_count := by
  obtain ⟨hs, s1, s2, hscan, h1, h2, -, hrefs, hrc, -, -, -, -, -, -, -, -⟩ :=
    prepare_ok_decompose hprep
  obtain ⟨-, hfrefs, -, -, -, -⟩ := pass2_fold_spec h2
  obtain ⟨-, hfrc⟩ := pass1_fold_spec (pass1Init_length cc) (headersOf_mem hscan) h1
  rw [hrefs, hfrefs, hrc, hfrc]
  simp [pass2Init, pass1Init, refsOf_length]

/-- Witness for C9, at the same multi-site program. -/
theorem reference_slots_balanced_witness :
    ∃ mc, prepare ccSites 0 = Except.ok mc ∧
      mc.references.length = mc.references_count ∧ mc.references_count = 3 := by
  cases hmc : prepare ccSites 0 with
  | error e =>
    have hok : (prepare ccSites 0).toOption.isSome = true := by decide
    rw [hmc] at hok
    simp [Except.toOption] at hok
  | ok mc =>
    refine ⟨mc, rfl, reference_slots_balanced ccSites 0 mc hmc, ?_⟩
    have h3 : (prepare ccSites 0).toOption.map (fun m => m.references_count) = some 3 := by
      decide
    rw [hmc] at h3
    simp only [Except.toOption, Option.map_some] at h3
    exact Option.some.inj h3

theorem operandNat_of_int {st : List Word} {k n : Nat} (h : st[k]? = some (Word.int n)) :
    operandNat st k = Except.ok n := by
  unfold operandNat
  rw [h]

theorem literalAt_ok {lits : List Obj} {idx : Nat} {v : Obj}
    (h : literalAt lits idx = Except.ok v) : lits[idx]? = some v := by
  unfold literalAt at h
  split at h
  next v2 hv2 =>
    cases h
    exact hv2
  next => exact absurd h (by simp)

theorem pass2Step_push_literal {cc : CompiledCode} {nil_id : Nat} {spre sstep : Pass2State}
    {ip w : Nat} {op : Op}
    (hop : op = Op.push_memo ∨ op = Op.push_literal)
    (h : pass2Step cc nil_id spre (ip, op) = Except.ok sstep)
    (hv : spre.stream[ip + 1]? = some (Word.int w)) :
    ∃ v, cc.literals[w]? = some v ∧
      sstep.stream[ip + 1]? = some (Word.ref v) ∧
      sstep.references = spre.references ++ [ip + 1] := by
  have hlt : ip + 1 < spre.stream.length := by
    obtain ⟨hl, -⟩ := List.getElem?_eq_some.mp hv
    exact hl
  simp only [pass2Step] at h
  split at h
  next e he =>
    rw [passA_not_handled (by rcases hop with rfl | rfl <;> decide)] at he
    cases he
  rename_i s1 hA
  rw [passA_not_handled (by rcases hop with rfl | rfl <;> decide)] at hA
  cases hA
  unfold passB at h
  rw [if_neg (by rcases hop with rfl | rfl <;> decide),
      if_neg (by rcases hop with rfl | rfl <;> decide),
      if_neg (by rcases hop with rfl | rfl <;> decide),
      if_pos (by rcases hop with rfl | rfl <;> simp)] at h
  split at h
  next e he =>
    rw [operandNat_of_int hv] at he
    cases he
  next idx hidx =>
    rw [operandNat_of_int hv] at hidx
    cases hidx
    split at h
    next e he => exact absurd h (by simp)
    next v hlit =>
      cases h
      exact ⟨v, literalAt_ok hlit, by simp [List.getElem?_set_self, hlt], rfl⟩

theorem pass2Step_create_block {cc : CompiledCode} {nil_id : Nat} {spre sstep : Pass2State}
    {ip w : Nat}
    (h : pass2Step cc nil_id spre (ip, Op.create_block) = Except.ok sstep)
    (hv : spre.stream[ip + 1]? = some (Word.int w)) :
    ∃ v, cc.literals[w]? = some v ∧
      sstep.stream[ip + 1]? = some (Word.ref v) ∧
      sstep.references = spre.references ++ [ip + 1] := by
  have hlt : ip + 1 < spre.stream.length := by
    obtain ⟨hl, -⟩ := List.getElem?_eq_some.mp hv
    exact hl
  simp only [pass2Step] at h
  split at h
  next e he =>
    rw [passA_not_handled (by decide)] at he
    cases he
  rename_i s1 hA
  rw [passA_not_handled (by decide)] at hA
  cases hA
  unfold passB at h
  rw [if_neg (by decide), if_neg (by decide), if_pos rfl] at h
  split at h
  next e he =>
    rw [operandNat_of_int hv] at he
    cases he
  next idx hidx =>
    rw [operandNat_of_int hv] at hidx
    cases hidx
    split at h
    next e he => exact absurd h (by simp)
    next v hlit =>
      split at h
      next c =>
        cases h
        exact ⟨Obj.code c, literalAt_ok hlit, by simp [List.getElem?_set_self, hlt], rfl⟩
      next t =>
        cases h
        exact ⟨Obj.str t, literalAt_ok hlit, by simp [List.getElem?_set_self, hlt], rfl⟩
      next hv2 hv3 => exact absurd h (by simp)

theorem pass2Step_ivar {cc : CompiledCode} {nil_id : Nat} {spre sstep : Pass2State}
    {ip w : Nat} {op : Op}
    (hop : op ∈ ivarLiteralOps)
    (h : pass2Step cc nil_id spre (ip, op) = Except.ok sstep)
    (hv : spre.stream[ip + 1]? = some (Word.int w)) :
    ∃ t, cc.literals[w]? = some (Obj.sym t) ∧
      sstep.stream[ip + 1]? = some (Word.ref (Obj.sym t)) ∧
      sstep.references = spre.references := by
  have hlt : ip + 1 < spre.stream.length := by
    obtain ⟨hl, -⟩ := List.getElem?_eq_some.mp hv
    exact hl
  have hnA : op ∉ passAHandledOps :=
    (by decide : ∀ o ∈ ivarLiteralOps, o ∉ passAHandledOps) op hop
  have hne1 : ¬ op = Op.push_int := by
    rintro rfl
    revert hop
    decide
  have hne2 : ¬ op = Op.push_tagged_nil := by
    rintro rfl
    revert hop
    decide
  have hne3 : ¬ op = Op.create_block := by
    rintro rfl
    revert hop
    decide
  have hne4 : ¬ (op = Op.push_memo ∨ op = Op.push_literal) := by
    rintro (rfl | rfl) <;> revert hop <;> decide
  simp only [pass2Step] at h
  split at h
  next e he =>
    rw [passA_not_handled hnA] at he
    cases he
  rename_i s1 hA
  rw [passA_not_handled hnA] at hA
  cases hA
  unfold passB at h
  rw [if_neg hne1, if_neg hne2, if_neg hne3, if_neg hne4, if_pos hop] at h
  split at h
  next e he =>
    rw [operandNat_of_int hv] at he
    cases he
  next idx hidx =>
    rw [operandNat_of_int hv] at hidx
    cases hidx
    split at h
    next e he => exact absurd h (by simp)
    next v hlit =>
      split at h
      next t =>
        cases h
        exact ⟨t, literalAt_ok hlit, by simp [List.getElem?_set_self, hlt], rfl⟩
      next hv2 => exact absurd h (by simp)

theorem pass2Step_r_load_literal {cc : CompiledCode} {nil_id : Nat} {spre sstep : Pass2State}
    {ip w : Nat}
    (h : pass2Step cc nil_id spre (ip, Op.r_load_literal) = Except.ok sstep)
    (hv : spre.stream[ip + 2]? = some (Word.int w)) :
    ∃ v, cc.literals[w]? = some v ∧
      sstep.stream[ip + 2]? = some (Word.ref v) ∧
      sstep.references = spre.references ++ [ip + 2] := by
  have hlt : ip + 2 < spre.stream.length := by
    obtain ⟨hl, -⟩ := List.getElem?_eq_some.mp hv
    exact hl
  simp only [pass2Step] at h
  split at h
  next e he => exact absurd h (by simp)
  next s1 hA =>
    rw [passB_not_handled (by decide : Op.r_load_literal ∉ passBHandledOps)] at h
    cases h
    unfold passA at hA
    rw [if_neg (by decide), if_neg (by decide), if_neg (by decide), if_pos rfl] at hA
    split at hA
    next e he =>
      rw [operandNat_of_int hv] at he
      cases he
    next idx hidx =>
      rw [operandNat_of_int hv] at hidx
      cases hidx
      split at hA
      next e he => exact absurd hA (by simp)
      next v hlit =>
        cases hA
        refine ⟨v, literalAt_ok hlit, ?_, rfl⟩
        rw [biasAt_frame (by omega : ip + 1 ≠ ip + 2)]
        simp [List.getElem?_set_self, hlt]

theorem pass2Step_invoke_primitive {cc : CompiledCode} {nil_id : Nat} {spre sstep : Pass2State}
    {ip w : Nat}
    (h : pass2Step cc nil_id spre (ip, Op.invoke_primitive) = Except.ok sstep)
    (hv : spre.stream[ip + 1]? = some (Word.int w)) :
    ∃ t, cc.literals[w]? = some (Obj.sym t) ∧
      sstep.stream[ip + 1]? = some (Word.invoker t) ∧
      sstep.references = spre.references := by
  have hlt : ip + 1 < spre.stream.length := by
    obtain ⟨hl, -⟩ := List.getElem?_eq_some.mp hv
    exact hl
  simp only [pass2Step] at h
  split at h
  next e he =>
    rw [passA_not_handled (by decide)] at he
    cases he
  rename_i s1 hA
  rw [passA_not_handled (by decide)] at hA
  cases hA
  unfold passB at h
  rw [if_neg (by decide), if_neg (by decide), if_neg (by decide),
      if_neg (by rintro (hc | hc) <;> cases hc), if_neg (by decide), if_pos rfl] at h
  split at h
  next e he =>
    rw [operandNat_of_int hv] at he
    cases he
  next idx hidx =>
    rw [operandNat_of_int hv] at hidx
    cases hidx
    split at h
    next e he => exact absurd h (by simp)
    next v hlit =>
      split at h
      next t =>
        cases h
        exact ⟨t, literalAt_ok hlit, by simp [List.getElem?_set_self, hlt], rfl⟩
      next hv2 => exact absurd h (by simp)

theorem refsOf_mem {hs : List (Nat × Op)} {k : Nat} (h : k ∈ refsOf hs) :
    ∃ p ∈ hs, (p.2 = Op.r_load_literal ∧ k = p.1 + 2) ∨
      (p.2 ∈ refRecordOps ∧ k = p.1 + 1) := by
  induction hs with
  | nil => simp [refsOf] at h
  | cons p t ih =>
    simp only [refsOf, List.mem_append] at h
    rcases h with h | h
    · refine ⟨p, List.mem_cons_self _ _, ?_⟩
      unfold refsOfHeader at h
      split at h
      next h1 =>
        simp only [List.mem_singleton] at h
        exact Or.inl ⟨h1, h⟩
      next h1 =>
        split at h
        next h2 =>
          simp only [List.mem_singleton] at h
          exact Or.inr ⟨h2, h⟩
        next h2 => simp at h
    · obtain ⟨q, hq, hcase⟩ := ih h
      exact ⟨q, List.mem_cons_of_mem _ hq, hcase⟩

theorem not_mem_refs_at {hs : List (Nat × Op)}
    (hch : List.Pairwise (fun a b : Nat × Op => a.1 + instWidth a.2 ≤ b.1) hs)
    {ip k : Nat} {op : Op} (hmem : (ip, op) ∈ hs)
    (hk1 : ip + 1 ≤ k) (hk2 : k < ip + instWidth op)
    (hop1 : op ∉ refRecordOps) (hop2 : op ≠ Op.r_load_literal) :
    k ∉ refsOf hs := by
  intro hin
  obtain ⟨p, hp, hcase⟩ := refsOf_mem hin
  obtain ⟨q, o2⟩ := p
  rcases Nat.lt_trichotomy q ip with hlt | heq | hgt
  · have hgap : q + instWidth o2 ≤ ip := headers_gap hch hp hmem hlt
    rcases hcase with ⟨ho2, hkeq⟩ | ⟨ho2, hkeq⟩
    · simp only at ho2 hkeq
      have hw : instWidth o2 = 3 := by rw [ho2]; decide
      omega
    · simp only at ho2 hkeq
      have hw : 2 ≤ instWidth o2 := width_refRecordOps o2 ho2
      omega
  · subst heq
    have heq2 : o2 = op := headers_op_unique hch hp hmem
    subst heq2
    rcases hcase with ⟨ho2, -⟩ | ⟨ho2, -⟩ <;> simp only at ho2
    · exact hop2 ho2
    · exact hop1 ho2
  · have hgap : ip + instWidth op ≤ q := headers_gap hch hmem hp hgt
    rcases hcase with ⟨-, hkeq⟩ | ⟨-, hkeq⟩ <;> simp only at hkeq <;> omega

theorem mc_references_refsOf {cc : CompiledCode} {nil_id : Nat} {mc : MachineCode}
    {hs : List (Nat × Op)}
    (hprep : prepare cc nil_id = Except.ok mc)
    (hscan : headersOf cc = Except.ok hs) :
    mc.references = refsOf hs := by
  obtain ⟨hs2, s1, s2, hscan2, h1, h2, -, hrefs, -, -, -, -, -, -, -, -, -⟩ :=
    prepare_ok_decompose hprep
  rw [hscan] at hscan2
  cases hscan2
  obtain ⟨-, hfrefs, -, -, -, -⟩ := pass2_fold_spec h2
  rw [hrefs, hfrefs]
  simp [pass2Init]

/-- C1 (amended): for `push_literal`, `push_memo` and `create_block`, `prepare`
resolves the literal index in operand 1 to the literal reference, overwrites
operand 1, and records `ip+1` in the reference-slot array; for
`r_load_literal` it does the same for operand 2, recording `ip+2`; for
`set_ivar`, `push_ivar`, `set_const` and `set_const_at` it resolves the
symbol literal in operand 1 and overwrites it, but records no reference
slot. -/
theorem literal_group_resolution
    (cc : CompiledCode) (nil_id : Nat) (mc : MachineCode) (hs : List (Nat × Op))
    (ip : Nat) (op : Op)
    (hprep : prepare cc nil_id = Except.ok mc)
    (hscan : headersOf cc = Except.ok hs)
    (hmem : (ip, op) ∈ hs) :
    (op = Op.push_literal ∨ op = Op.push_memo ∨ op = Op.create_block →
      ∃ w v, cc.opcodes[ip + 1]? = some w ∧ cc.literals[w]? = some v ∧
        mc.stream[ip + 1]? = some (Word.ref v) ∧ (ip + 1) ∈ mc.references) ∧
    (op = Op.r_load_literal →
      ∃ w v, cc.opcodes[ip + 2]? = some w ∧ cc.literals[w]? = some v ∧
        mc.stream[ip + 2]? = some (Word.ref v) ∧ (ip + 2) ∈ mc.references) ∧
    (op ∈ ivarLiteralOps →
      ∃ w t, cc.opcodes[ip + 1]? = some w ∧ cc.literals[w]? = some (Obj.sym t) ∧
        mc.stream[ip + 1]? = some (Word.ref (Obj.sym t)) ∧ (ip + 1) ∉ mc.references) := by
  obtain ⟨pre, post, hsplit⟩ := List.append_of_mem hmem
  obtain ⟨s1, spre, sstep, h1, hpre, hstep, hentry, hfinal, hrefs, hrefspre, -, -, -⟩ :=
    prepare_at_header hprep hscan hsplit
  refine ⟨?_, ?_, ?_⟩
  · intro hop
    have hw : instWidth op = 2 := by rcases hop with rfl | rfl | rfl <;> decide
    obtain ⟨w, hv, hsv⟩ := hentry 1 (by omega) (by omega)
    have hres : ∃ v, cc.literals[w]? = some v ∧
        sstep.stream[ip + 1]? = some (Word.ref v) ∧
        sstep.references = spre.references ++ [ip + 1] := by
      rcases hop with rfl | rfl | rfl
      · exact pass2Step_push_literal (Or.inr rfl) hstep hsv
      · exact pass2Step_push_literal (Or.inl rfl) hstep hsv
      · exact pass2Step_create_block hstep hsv
    obtain ⟨v, hlit, hstv, -⟩ := hres
    refine ⟨w, v, hv, hlit, ?_, ?_⟩
    · rw [hfinal 1 (by omega) (by omega)]
      exact hstv
    · rw [hrefs]
      have hhd : refsOfHeader (ip, op) = [ip + 1] := by
        unfold refsOfHeader
        dsimp only
        rcases hop with rfl | rfl | rfl <;>
          rw [if_neg (by decide), if_pos (by decide)]
      rw [hhd]
      simp
  · intro hop
    subst hop
    have hw : instWidth Op.r_load_literal = 3 := by decide
    obtain ⟨w, hv, hsv⟩ := hentry 2 (by omega) (by omega)
    obtain ⟨v, hlit, hstv, -⟩ := pass2Step_r_load_literal hstep hsv
    refine ⟨w, v, hv, hlit, ?_, ?_⟩
    · rw [hfinal 2 (by omega) (by omega)]
      exact hstv
    · rw [hrefs]
      have hhd : refsOfHeader (ip, Op.r_load_literal) = [ip + 2] := by
        unfold refsOfHeader
        dsimp only
        rw [if_pos rfl]
      rw [hhd]
      simp
  · intro hop
    have hw : instWidth op = 2 := ivarOps_width op hop
    obtain ⟨w, hv, hsv⟩ := hentry 1 (by omega) (by omega)
    obtain ⟨t, hlit, hstv, -⟩ := pass2Step_ivar hop hstep hsv
    refine ⟨w, t, hv, hlit, ?_, ?_⟩
    · rw [hfinal 1 (by omega) (by omega)]
      exact hstv
    · rw [mc_references_refsOf hprep hscan]
      refine not_mem_refs_at (headersOf_chain hscan) hmem (by omega) (by omega)
        (ivarOps_not_refRecord op hop) ?_
      rintro rfl
      exact absurd hop (by decide)

/-- Counterexample to C1 as stated: for the program `[set_ivar 0]` with
literals `[:x]`, `prepare` resolves the symbol literal into operand 1 but the
reference-slot array stays empty, where the claim requires the entry `1`. -/
theorem literal_group_counterexample :
    (prepare ccSetIvar 0).toOption.map
      (fun mc => (mc.stream[1]?, mc.references)) =
      some (some (Word.ref (Obj.sym "x")), []) := by
  decide

/-- Witness for C1 (amended), at the push-literal program: the literal is
resolved into operand 1 and `1` is recorded as a reference slot. -/
theorem literal_group_resolution_witness :
    ∃ mc, prepare ccPushLiteral 0 = Except.ok mc ∧
      mc.stream[1]? = some (Word.ref (Obj.str "hello")) ∧ (1 : Nat) ∈ mc.references := by
  cases hmc : prepare ccPushLiteral 0 with
  | error e =>
    have hok : (prepare ccPushLiteral 0).toOption.isSome = true := by decide
    rw [hmc] at hok
    simp [Except.toOption] at hok
  | ok mc =>
    obtain ⟨h1, -, -⟩ :=
      literal_group_resolution ccPushLiteral 0 mc [(0, Op.push_literal), (2, Op.ret)]
        0 Op.push_literal hmc (by decide) (by decide)
    obtain ⟨w, v, hw, hv, hst, hm⟩ := h1 (Or.inl rfl)
    have hw2 : ccPushLiteral.opcodes[0 + 1]? = some 0 := by decide
    rw [hw2] at hw
    cases hw
    have hv2 : ccPushLiteral.literals[(0 : Nat)]? = some (Obj.str "hello") := by decide
    rw [hv2] at hv
    cases hv
    exact ⟨mc, rfl, hst, hm⟩

/-- C7: for every `invoke_primitive` instruction, `prepare` resolves the
symbol in operand 1 to the primitive invoker through the primitive registry
and stores that pointer in operand 1, and records no reference slot for that
instruction in either pass. -/
theorem invoke_primitive_resolution
    (cc : CompiledCode) (nil_id : Nat) (mc : MachineCode) (hs : List (Nat × Op))
    (ip : Nat)
    (hprep : prepare cc nil_id = Except.ok mc)
    (hscan : headersOf cc = Except.ok hs)
    (hmem : (ip, Op.invoke_primitive) ∈ hs) :
    ∃ w t, cc.opcodes[ip + 1]? = some w ∧ cc.literals[w]? = some (Obj.sym t) ∧
      mc.stream[ip + 1]? = some (Word.invoker t) ∧
      (ip + 1) ∉ mc.references ∧ (ip + 2) ∉ mc.references := by
  obtain ⟨pre, post, hsplit⟩ := List.append_of_mem hmem
  obtain ⟨s1, spre, sstep, h1, hpre, hstep, hentry, hfinal, -, -, -, -, -⟩ :=
    prepare_at_header hprep hscan hsplit
  have hw : instWidth Op.invoke_primitive = 3 := by decide
  obtain ⟨w, hv, hsv⟩ := hentry 1 (by omega) (by omega)
  obtain ⟨t, hlit, hstv, -⟩ := pass2Step_invoke_primitive hstep hsv
  refine ⟨w, t, hv, hlit, ?_, ?_, ?_⟩
  · rw [hfinal 1 (by omega) (by omega)]
    exact hstv
  · rw [mc_references_refsOf hprep hscan]
    exact not_mem_refs_at (headersOf_chain hscan) hmem (by omega) (by omega)
      (by decide) (by decide)
  · rw [mc_references_refsOf hprep hscan]
    exact not_mem_refs_at (headersOf_chain hscan) hmem (by omega) (by omega)
      (by decide) (by decide)

/-- Witness for C7, at a one-instruction `invoke_primitive` program. -/
theorem invoke_primitive_resolution_witness :
    ∃ mc, prepare ccInvoke 0 = Except.ok mc ∧
      mc.stream[1]? = some (Word.invoker "prim") ∧
      (1 : Nat) ∉ mc.references ∧ (2 : Nat) ∉ mc.references := by
  cases hmc : prepare ccInvoke 0 with
  | error e =>
    have hok : (prepare ccInvoke 0).toOption.isSome = true := by decide
    rw [hmc] at hok
    simp [Except.toOption] at hok
  | ok mc =>
    obtain ⟨w, t, hw, hv, hst, hn1, hn2⟩ :=
      invoke_primitive_resolution ccInvoke 0 mc [(0, Op.invoke_primitive)] 0
        hmc (by decide) (by decide)
    have hw2 : ccInvoke.opcodes[0 + 1]? = some 0 := by decide
    rw [hw2] at hw
    cases hw
    have hv2 : ccInvoke.literals[(0 : Nat)]? = some (Obj.sym "prim") := by decide
    rw [hv2] at hv
    cases hv
    exact ⟨mc, rfl, hst, hn1, hn2⟩

theorem pass2Step_send {cc : CompiledCode} {nil_id : Nat} {spre sstep : Pass2State}
    {ip w : Nat} {op : Op}
    (hop : op ∈ sendOps)
    (h : pass2Step cc nil_id spre (ip, op) = Except.ok sstep)
    (hv : spre.stream[ip + 1]? = some (Word.int w)) :
    ∃ v, cc.literals[w]? = some v ∧
      sstep.call_sites = spre.call_sites ++
        [(ip, sendSite cc ip op v spre.allow_private spre.is_super)] ∧
      sstep.references = spre.references ++ [ip + 1] ∧
      sstep.stream[ip + 1]? =
        some (Word.site (sendSite cc ip op v spre.allow_private spre.is_super)) ∧
      sstep.allow_private = false ∧ sstep.is_super = false := by
  have hnA : ∀ o ∈ sendOps, ¬ o = Op.b_if_serial → o ∉ passAHandledOps := by decide
  simp only [pass2Step] at h
  split at h
  next e he =>
    by_cases hb : op = Op.b_if_serial
    · subst hb
      unfold passA at he
      rw [if_pos rfl] at he
      cases he
    · rw [passA_not_handled (hnA op hop hb)] at he
      cases he
  next s1 hA =>
    have hs1 : s1.stream[ip + 1]? = some (Word.int w) ∧
        s1.allow_private = spre.allow_private ∧ s1.is_super = spre.is_super ∧
        s1.call_sites = spre.call_sites ∧ s1.references = spre.references := by
      by_cases hb : op = Op.b_if_serial
      · subst hb
        unfold passA at hA
        rw [if_pos rfl] at hA
        cases hA
        refine ⟨?_, rfl, rfl, rfl, rfl⟩
        rw [biasAt_frame (by omega : ip + 2 ≠ ip + 1)]
        exact hv
      · rw [passA_not_handled (hnA op hop hb)] at hA
        cases hA
        exact ⟨hv, rfl, rfl, rfl, rfl⟩
    obtain ⟨hv1, hap1, hsu1, hcs1, hr1⟩ := hs1
    have hlt1 : ip + 1 < s1.stream.length := by
      obtain ⟨hl, -⟩ := List.getElem?_eq_some.mp hv1
      exact hl
    unfold passB at h
    rw [if_neg (by rintro rfl; exact absurd hop (by decide)),
        if_neg (by rintro rfl; exact absurd hop (by decide)),
        if_neg (by rintro rfl; exact absurd hop (by decide)),
        if_neg (by rintro (rfl | rfl) <;> exact absurd hop (by decide)),
        if_neg (fun hc => (ivarOps_not_send op hc) hop),
        if_neg (by rintro rfl; exact absurd hop (by decide)),
        if_neg (by rintro rfl; exact absurd hop (by decide)),
        if_pos hop] at h
    split at h
    next e he =>
      rw [operandNat_of_int hv1] at he
      cases he
    next idx hidx =>
      rw [operandNat_of_int hv1] at hidx
      cases hidx
      split at h
      next e he => exact absurd h (by simp)
      next v hlit =>
        cases h
        refine ⟨v, literalAt_ok hlit, ?_, ?_, ?_, rfl, rfl⟩
        · rw [hcs1, hap1, hsu1]
          rfl
        · rw [hr1]
        · rw [hap1, hsu1]
          simp only [sendSite]
          simp [List.getElem?_set_self, hlt1]

/-- C5: for every send variant, serial-check variant, `object_to_s` and
`b_if_serial` instruction, `prepare` creates a fresh call site bound to the
resolved name, the serial and `ip`, sets its privacy/super/vcall flags from
the local `allow_private` / `is_super` flags (with `send_vcall`,
`object_to_s` and `b_if_serial` forcing the private flag and `send_vcall`
setting the vcall flag), installs it in the machine code's call-site table
indexed by `ip`, records `ip+1` as a reference slot, and clears both local
flags. -/
theorem send_call_site_install
    (cc : CompiledCode) (nil_id : Nat) (mc : MachineCode)
    (hs pre post : List (Nat × Op)) (ip : Nat) (op : Op)
    (hprep : prepare cc nil_id = Except.ok mc)
    (hscan : headersOf cc = Except.ok hs)
    (hsplit : hs = pre ++ (ip, op) :: post)
    (hop : op ∈ sendOps) :
    ∃ s1 spre sstep,
      foldE (pass1Step cc.opcodes) (pass1Init cc) hs = Except.ok s1 ∧
      foldE (pass2Step cc nil_id) (pass2Init s1.stream) pre = Except.ok spre ∧
      pass2Step cc nil_id spre (ip, op) = Except.ok sstep ∧
      ∃ w v, cc.opcodes[ip + 1]? = some w ∧ cc.literals[w]? = some v ∧
        (ip, sendSite cc ip op v spre.allow_private spre.is_super) ∈ mc.call_sites ∧
        sstep.call_sites = spre.call_sites ++
          [(ip, sendSite cc ip op v spre.allow_private spre.is_super)] ∧
        sstep.references = spre.references ++ [ip + 1] ∧
        (ip + 1) ∈ mc.references ∧
        sstep.allow_private = false ∧ sstep.is_super = false := by
  obtain ⟨s1, spre, sstep, h1, hpre, hstep, hentry, hfinal, hrefs, hrefspre, hsites, -, -⟩ :=
    prepare_at_header hprep hscan hsplit
  have hw2 : 2 ≤ instWidth op := width_sendOps op hop
  obtain ⟨w, hv, hsv⟩ := hentry 1 (by omega) (by omega)
  obtain ⟨v, hlit, hcs, hrefs2, -, hap, hsu⟩ := pass2Step_send hop hstep hsv
  refine ⟨s1, spre, sstep, h1, hpre, hstep, w, v, hv, hlit, ?_, hcs, hrefs2, ?_, hap, hsu⟩
  · refine hsites _ ?_
    rw [hcs]
    simp
  · rw [hrefs]
    have hhd : refsOfHeader (ip, op) = [ip + 1] := by
      unfold refsOfHeader
      dsimp only
      rw [if_neg (by rintro rfl; exact absurd hop (by decide)),
          if_pos (sendOps_mem_refRecordOps op hop)]
    rw [hhd]
    simp

/-- Witness for C5, at the program `[allow_private, send_method plus]`: the
installed call site is private (from the pending `allow_private` flag), not
super, not vcall, bound to the resolved name, the serial and the send's
instruction pointer, and `ip+1` is recorded as a reference slot. -/
theorem send_call_site_install_witness :
    ∃ mc, prepare ccSend 0 = Except.ok mc ∧
      (1, ({ name := some "plus", serial := 5, ip := 1, is_private := true,
             is_super := false, is_vcall := false } : CallSite)) ∈ mc.call_sites ∧
      (2 : Nat) ∈ mc.references := by
  cases hmc : prepare ccSend 0 with
  | error e =>
    have hok : (prepare ccSend 0).toOption.isSome = true := by decide
    rw [hmc] at hok
    simp [Except.toOption] at hok
  | ok mc =>
    obtain ⟨s1, spre, sstep, h1, hpre, hstep, w, v, hv, hlit, hsite, -, -, hrefmem, -, -⟩ :=
      send_call_site_install ccSend 0 mc [(0, Op.allow_private), (1, Op.send_method)]
        [(0, Op.allow_private)] [] 1 Op.send_method hmc (by decide) (by decide) (by decide)
    have hv2 : ccSend.opcodes[1 + 1]? = some 0 := by decide
    rw [hv2] at hv
    cases hv
    have hlit2 : ccSend.literals[(0 : Nat)]? = some (Obj.sym "plus") := by decide
    rw [hlit2] at hlit
    cases hlit
    have hap : spre.allow_private = true := by
      simp only [foldE] at hpre
      split at hpre
      next e he => exact absurd hpre (by simp)
      next sx hsx =>
        cases hpre
        simp only [pass2Step] at hsx
        split at hsx
        next e he =>
          rw [passA_not_handled (by decide : Op.allow_private ∉ passAHandledOps)] at he
          cases he
        next sy hsy =>
          rw [passA_not_handled (by decide : Op.allow_private ∉ passAHandledOps)] at hsy
          cases hsy
          unfold passB at hsx
          rw [if_neg (by decide), if_neg (by decide), if_neg (by decide),
              if_neg (by rintro (hc | hc) <;> cases hc), if_neg (by decide),
              if_neg (by decide), if_pos rfl] at hsx
          cases hsx
          rfl
    rw [hap] at hsite
    refine ⟨mc, rfl, ?_, hrefmem⟩
    have hsend : sendSite ccSend 1 Op.send_method (Obj.sym "plus") true spre.is_super =
        { name := some "plus", serial := 5, ip := 1, is_private := true,
          is_super := false, is_vcall := false } := by
      unfold sendSite
      rw [if_neg (by decide), if_neg (by decide), if_neg (by decide)]
      cases hsup : spre.is_super
      · rfl
      · exfalso
        revert hsup
        simp only [foldE] at hpre
        split at hpre
        next e he => exact absurd hpre (by simp)
        next sx hsx =>
          cases hpre
          simp only [pass2Step] at hsx
          split at hsx
          next e he =>
            rw [passA_not_handled (by decide : Op.allow_private ∉ passAHandledOps)] at he
            cases he
          next sy hsy =>
            rw [passA_not_handled (by decide : Op.allow_private ∉ passAHandledOps)] at hsy
            cases hsy
            unfold passB at hsx
            rw [if_neg (by decide), if_neg (by decide), if_neg (by decide),
                if_neg (by rintro (hc | hc) <;> cases hc), if_neg (by decide),
                if_neg (by decide), if_pos rfl] at hsx
            cases hsx
            simp [pass2Init]
    rw [hsend] at hsite
    exact hsite

/-- C10: a freshly initialized `MonoInlineCache` has `hits = 0`, no
method-missing reason, raw receiver descriptor 0 and nil receiver class,
stored module and method; a freshly initialized `JITCompileRequest` has no
waiter, `hits = 0`, `is_block = false` and nil method, receiver class and
block environment. -/
theorem cache_initial_fields :
    MonoInlineCache.initFields.hits = 0 ∧
    MonoInlineCache.initFields.method_missing = MethodMissingReason.eNone ∧
    MonoInlineCache.initFields.receiver_raw = 0 ∧
    MonoInlineCache.initFields.receiver_class = none ∧
    MonoInlineCache.initFields.stored_module = none ∧
    MonoInlineCache.initFields.method = none ∧
    JITCompileRequest.initFields.waiter = none ∧
    JITCompileRequest.initFields.hits = 0 ∧
    JITCompileRequest.initFields.is_block = false ∧
    JITCompileRequest.initFields.method = none ∧
    JITCompileRequest.initFields.receiver_class = none ∧
    JITCompileRequest.initFields.block_env = none :=
  ⟨rfl, rfl, rfl, rfl, rfl, rfl, rfl, rfl, rfl, rfl, rfl, rfl⟩

/-- Counterexample to C2 as stated: in the language-exception-in-flight path
of `execute` the exception is raised on the state and zero is returned, but
the frame's variable scope is not flushed to heap, against the claim that
every failure path flushes it. -/
theorem failure_flush_counterexample :
    (execute msBase frameBase mcEmpty
        (DispatchOutcome.rubyException excLocated)).2.1.scope.heap_flushed = false ∧
    (execute msBase frameBase mcEmpty
        (DispatchOutcome.rubyException excLocated)).1.raised_exception = some excLocated ∧
    (execute msBase frameBase mcEmpty
        (DispatchOutcome.rubyException excLocated)).2.2 = 0 := by
  refine ⟨rfl, ?_, rfl⟩
  rfl

/-- C2 (amended): in the type-error, other-host-failure and unknown-failure
paths trapped by `execute`, the frame's variable scope is flushed to heap and
the resulting exception is raised on the state before `execute` returns; in
the language-exception-in-flight path the exception is raised on the state
and zero returned, but the scope is left unflushed. -/
theorem failure_paths_flush_and_raise
    (state : MState) (frame : ExecCallFrame) (mc : MachineCode) (outcome : DispatchOutcome)
    (hfail : ∀ v, outcome ≠ DispatchOutcome.ret v) :
    (execute state frame mc outcome).1.raised_exception.isSome = true ∧
    (execute state frame mc outcome).2.2 = 0 ∧
    ((∃ t o r, outcome = DispatchOutcome.typeError t o r) ∨
        (∃ m, outcome = DispatchOutcome.stdException m) ∨
        outcome = DispatchOutcome.unknownException →
      (execute state frame mc outcome).2.1.scope.heap_flushed = true) ∧
    (∀ e, outcome = DispatchOutcome.rubyException e →
      (execute state frame mc outcome).2.1.scope = frame.scope) := by
  cases outcome with
  | ret v => exact absurd rfl (hfail v)
  | typeError t o r =>
    exact ⟨rfl, rfl, fun _ => rfl, fun e he => by cases he⟩
  | rubyException e =>
    refine ⟨rfl, rfl, ?_, fun e2 he => rfl⟩
    rintro (⟨t, o, r, he⟩ | ⟨m, he⟩ | he) <;> cases he
  | stdException m =>
    exact ⟨rfl, rfl, fun _ => rfl, fun e he => by cases he⟩
  | unknownException =>
    exact ⟨rfl, rfl, fun _ => rfl, fun e he => by cases he⟩

/-- Witness for C2 (amended), at a concrete host failure and a concrete
forwarded language exception. -/
theorem failure_paths_flush_and_raise_witness :
    (execute msBase frameBase mcEmpty
        (DispatchOutcome.stdException "boom")).2.1.scope.heap_flushed = true ∧
    (execute msBase frameBase mcEmpty
        (DispatchOutcome.rubyException excLocated)).2.1.scope = frameBase.scope := by
  constructor
  · exact (failure_paths_flush_and_raise msBase frameBase mcEmpty
      (DispatchOutcome.stdException "boom") (fun v h => by cases h)).2.2.1
      (Or.inr (Or.inl ⟨"boom", rfl⟩))
  · exact (failure_paths_flush_and_raise msBase frameBase mcEmpty
      (DispatchOutcome.rubyException excLocated) (fun v h => by cases h)).2.2.2
      excLocated rfl

/-- Counterexample to C8 as stated: a forwarded language exception carrying a
non-nil but empty location set is raised with that empty location set, so the
exception surfaced by `execute` does not carry a non-empty location
snapshot. -/
theorem failure_location_counterexample :
    (execute msBase frameBase mcEmpty
        (DispatchOutcome.rubyException excEmptyLoc)).1.raised_exception =
      some { payload := ExcPayload.userExc 7, locations := some [] } ∧
    (execute msBase frameBase mcEmpty
        (DispatchOutcome.rubyException excEmptyLoc)).2.2 = 0 := by
  refine ⟨?_, rfl⟩
  rfl

/-- C8 (amended): whenever `execute` traps a host failure it returns the
sentinel zero and raises an exception on the state; in the type-error,
host-error and unknown paths, and for a forwarded language exception without
locations, the raised exception carries the call-stack snapshot, which is
non-empty whenever the call stack is; a forwarded exception that already
carried locations keeps them unchanged (possibly empty). -/
theorem failure_return_and_location
    (state : MState) (frame : ExecCallFrame) (mc : MachineCode) (outcome : DispatchOutcome)
    (hfail : ∀ v, outcome ≠ DispatchOutcome.ret v)
    (hstack : state.call_stack ≠ []) :
    (execute state frame mc outcome).2.2 = 0 ∧
    ∃ exc, (execute state frame mc outcome).1.raised_exception = some exc ∧
      ((∀ e, outcome ≠ DispatchOutcome.rubyException e) →
        exc.locations = some state.call_stack ∧ exc.locations ≠ some []) ∧
      (∀ e, outcome = DispatchOutcome.rubyException e →
        (e.locations = none → exc.locations = some state.call_stack ∧
          exc.locations ≠ some []) ∧
        (e.locations ≠ none → exc = e)) := by
  have hne : ∀ {ls : List Nat}, ls ≠ [] → (some ls : Option (List Nat)) ≠ some [] := by
    intro ls hls hc
    exact hls (Option.some.inj hc)
  cases outcome with
  | ret v => exact absurd rfl (hfail v)
  | typeError t o r =>
    exact ⟨rfl, _, rfl, fun _ => ⟨rfl, hne hstack⟩, fun e he => by cases he⟩
  | rubyException e =>
    refine ⟨rfl, (if e.locations = none then
        { e with locations := some (locationFromCallStack state) } else e), rfl, ?_, ?_⟩
    · intro hno
      exact absurd rfl (hno e)
    · intro e2 he
      cases he
      by_cases hloc : e.locations = none
      · refine ⟨fun _ => ?_, fun hcon => absurd hloc hcon⟩
        rw [if_pos hloc]
        exact ⟨rfl, hne hstack⟩
      · refine ⟨fun hc => absurd hc hloc, fun _ => ?_⟩
        rw [if_neg hloc]
  | stdException m =>
    exact ⟨rfl, _, rfl, fun _ => ⟨rfl, hne hstack⟩, fun e he => by cases he⟩
  | unknownException =>
    exact ⟨rfl, _, rfl, fun _ => ⟨rfl, hne hstack⟩, fun e he => by cases he⟩

/-- Witness for C8 (amended), at a concrete type error with a one-frame call
stack: `execute` returns zero and the raised exception carries the non-empty
snapshot `[3]`. -/
theorem failure_return_and_location_witness :
    (execute msBase frameBase mcEmpty
        (DispatchOutcome.typeError 1 (Obj.other 0) "no implicit conversion")).2.2 = 0 ∧
    ∃ exc, (execute msBase frameBase mcEmpty
        (DispatchOutcome.typeError 1 (Obj.other 0) "no implicit conversion")).1.raised_exception =
          some exc ∧ exc.locations = some [3] := by
  obtain ⟨hz, exc, hsome, hloc, -⟩ :=
    failure_return_and_location msBase frameBase mcEmpty
      (DispatchOutcome.typeError 1 (Obj.other 0) "no implicit conversion")
      (fun v h => by cases h) (by decide)
  obtain ⟨hl, -⟩ := hloc (fun e h => by cases h)
  exact ⟨hz, exc, hsome, hl⟩

end Rubinius
